import Mathlib

/-
Verification of the ascii-render core of mesh3dtui.

This file gives a shallow embedding of the library's color model
(src/ascii-render/colors.ts), symbol catalog (src/ascii-render/symbols.ts),
region mapper (the mapper module exported from src/ascii-render, given here
from its source: getPixelSafe, mapRegionToPattern, findBestSymbol,
mapBrailleRegion, mapPixelsToCells) and renderer (src/ascii-render/renderer.ts:
gridToString, createBuffer, setPixel, getPixel, drawLine,
drawThickPixelPerpendicular), and proves the stated properties about them.

Modelling conventions:
  * JavaScript numbers holding pixel coordinates, channel values and patterns
    are modelled as Int / Nat; fractional intermediate values (channel
    averaging, alpha compositing, luma weights) are modelled as exact
    rationals.  The luma coefficients 0.299/0.587/0.114 are thus exact
    decimal fractions rather than binary doubles; no property proved here
    depends on double rounding.
  * Math.round(x) is floor(x + 1/2) (JavaScript ties round toward +inf),
    Math.floor on a halved integer is Int.fdiv.
  * The gradient fields of LineStyle (startColor/endColor) only change the
    color painted at a step via a floating-point sqrt of the line length;
    they influence neither which pixels are painted nor the loop control
    flow, and no claim concerns them, so they are not modelled.
  * The Bresenham while-(true) loop is modelled with explicit fuel; the
    fuel bound used by drawLine is justified by the termination theorem,
    which shows the loop finishes in exactly max(|dx|,|dy|)+1 iterations.
  * JavaScript bitwise operators work on 32-bit two's-complement integers:
    in mapRegionToPattern's `bitPattern |= 1 << i` the shift count is taken
    mod 32 (1 << 32 === 1).  The accumulator is carried as the unsigned
    32-bit image of the JS signed value: it stays below 2^32, agrees with
    the JS value bit-for-bit on bits 0..31, and a pattern with bit 31 set
    (negative as a JS number) compares unequal to every catalog pattern in
    either reading, so symbol matching is unaffected by the sign choice.
-/

namespace AsciiRender

/-! ## Color model  (src/src/ascii-render/colors.ts) -/

/-- Color with r,g,b channels and optional alpha (types.ts `Color`);
absent alpha means fully opaque. -/
structure Color where
  r : Int
  g : Int
  b : Int
  a : Option Int := none
deriving DecidableEq, Repr

/-- JavaScript Math.round: floor(x + 1/2). -/
def jsRound (q : Rat) : Int := ⌊q + 1/2⌋

/-- colors.ts `clampByte`: round to nearest integer, clamp to [0,255]. -/
def clampByte (value : Rat) : Int := max 0 (min 255 (jsRound value))

/-- colors.ts `ALPHA_THRESHOLD`. -/
def ALPHA_THRESHOLD : Int := 128

/-- colors.ts `BLACK` (fully opaque black). -/
def BLACK : Color := ⟨0, 0, 0, some 255⟩

/-- colors.ts `WHITE`. -/
def WHITE : Color := ⟨255, 255, 255, some 255⟩

/-- colors.ts `TRANSPARENT`. -/
def TRANSPARENT : Color := ⟨0, 0, 0, some 0⟩

/-- colors.ts `getBrightness`: clampByte(0.299 r + 0.587 g + 0.114 b). -/
def getBrightness (color : Color) : Int :=
  clampByte ((0.299 : Rat) * color.r + (0.587 : Rat) * color.g + (0.114 : Rat) * color.b)

/-- colors.ts `isPixelOn`: false when alpha is present and below the fixed
transparency cutoff, otherwise brightness ≥ threshold. -/
def isPixelOn (color : Color) (threshold : Int) : Bool :=
  match color.a with
  | some a => if a < ALPHA_THRESHOLD then false else decide (getBrightness color ≥ threshold)
  | none => decide (getBrightness color ≥ threshold)

/-- colors.ts `averageColors`: componentwise mean (missing alpha counted as
255), each channel clamped; empty input yields a copy of BLACK. -/
def averageColors (colors : List Color) : Color :=
  if colors.length = 0 then BLACK
  else
    let r : Int := colors.foldl (fun acc c => acc + c.r) 0
    let g : Int := colors.foldl (fun acc c => acc + c.g) 0
    let b : Int := colors.foldl (fun acc c => acc + c.b) 0
    let a : Int := colors.foldl (fun acc c => acc + c.a.getD 255) 0
    ⟨clampByte ((r : Rat) / colors.length),
     clampByte ((g : Rat) / colors.length),
     clampByte ((b : Rat) / colors.length),
     some (clampByte ((a : Rat) / colors.length))⟩

/-- colors.ts `blendColors`: source-over alpha compositing in normalized
alpha space; combined alpha 0 yields a copy of TRANSPARENT. -/
def blendColors (fg bg : Color) : Color :=
  let fgA : Rat := ((fg.a.getD 255 : Int) : Rat) / 255
  let bgA : Rat := ((bg.a.getD 255 : Int) : Rat) / 255
  let outA := fgA + bgA * (1 - fgA)
  if outA = 0 then TRANSPARENT
  else
    ⟨clampByte ((fg.r * fgA + bg.r * bgA * (1 - fgA)) / outA),
     clampByte ((fg.g * fgA + bg.g * bgA * (1 - fgA)) / outA),
     clampByte ((fg.b * fgA + bg.b * bgA * (1 - fgA)) / outA),
     some (clampByte (outA * 255))⟩

/-- colors.ts `rgb`: clamp each channel; alpha only when supplied. -/
def rgb (r g b : Rat) (a : Option Rat := none) : Color :=
  ⟨clampByte r, clampByte g, clampByte b, a.map clampByte⟩

/-- colors.ts `colorsEqual`: channelwise equality, missing alpha read as 255. -/
def colorsEqual (c1 c2 : Color) : Bool :=
  c1.r == c2.r && c1.g == c2.g && c1.b == c2.b && (c1.a.getD 255 == c2.a.getD 255)

/-- colors.ts `fgTruecolor`: ANSI 24-bit foreground escape. -/
def fgTruecolor (color : Color) : String :=
  "\x1b[38;2;" ++ toString (clampByte color.r) ++ ";" ++ toString (clampByte color.g)
    ++ ";" ++ toString (clampByte color.b) ++ "m"

/-- colors.ts `bgTruecolor`: ANSI 24-bit background escape. -/
def bgTruecolor (color : Color) : String :=
  "\x1b[48;2;" ++ toString (clampByte color.r) ++ ";" ++ toString (clampByte color.g)
    ++ ";" ++ toString (clampByte color.b) ++ "m"

/-- colors.ts `resetColors`. -/
def resetColors : String := "\x1b[0m"

/-! ### hex parsing

colors.ts `hex` relies on JavaScript `String.prototype.replace` (first
occurrence only) and `parseInt(str, 16)` (skip whitespace, optional sign,
optional 0x prefix, then the longest hex-digit prefix; NaN when that prefix
is empty).  Both are embedded below. -/

/-- JavaScript whitespace skipped by parseInt (ASCII subset; the inputs
reaching parseInt here are at most two characters). -/
def isJsSpace (c : Char) : Bool :=
  c = ' ' || c = '\t' || c = '\n' || c = '\r' || c = '\x0b' || c = '\x0c'

/-- Value of one hexadecimal digit. -/
def hexDigitValue (c : Char) : Option Nat :=
  if '0' ≤ c ∧ c ≤ '9' then some (c.toNat - '0'.toNat)
  else if 'a' ≤ c ∧ c ≤ 'f' then some (c.toNat - 'a'.toNat + 10)
  else if 'A' ≤ c ∧ c ≤ 'F' then some (c.toNat - 'A'.toNat + 10)
  else none

/-- Accumulate the longest hex-digit prefix, stopping at the first
non-digit (parseInt prefix semantics). -/
def hexPrefixVal (acc : Nat) : List Char → Nat
  | [] => acc
  | c :: cs =>
    match hexDigitValue c with
    | some d => hexPrefixVal (16 * acc + d) cs
    | none => acc

/-- JavaScript `parseInt(s, 16)`: none models NaN. -/
def parseIntHex (s : String) : Option Int :=
  let cs := s.data.dropWhile isJsSpace
  let signAndRest : Int × List Char :=
    match cs with
    | '-' :: rest => (-1, rest)
    | '+' :: rest => (1, rest)
    | _ => (1, cs)
  let body : List Char :=
    match signAndRest.2 with
    | '0' :: c :: rest => if c = 'x' ∨ c = 'X' then rest else signAndRest.2
    | _ => signAndRest.2
  match body with
  | c :: _ =>
    match hexDigitValue c with
    | some _ => some (signAndRest.1 * (hexPrefixVal 0 body : Int))
    | none => none
  | [] => none

/-- JavaScript `s.replace("#", "")`: removes only the first '#'. -/
def dropFirstHash : List Char → List Char
  | [] => []
  | c :: cs => if c = '#' then cs else c :: dropFirstHash cs

/-- colors.ts `hex`: parse "#RGB" or "#RRGGBB"; BLACK on anything whose
cleaned form is not 3 or 6 characters or whose groups fail to parse. -/
def hex (hexStr : String) : Color :=
  let clean := String.mk (dropFirstHash hexStr.data)
  if clean.length = 3 then
    let c0 := clean.data.getD 0 '0'
    let c1 := clean.data.getD 1 '0'
    let c2 := clean.data.getD 2 '0'
    match parseIntHex (String.mk [c0, c0]), parseIntHex (String.mk [c1, c1]),
        parseIntHex (String.mk [c2, c2]) with
    | some r, some g, some b => ⟨r, g, b, some 255⟩
    | _, _, _ => BLACK
  else if clean.length = 6 then
    match parseIntHex (String.mk (clean.data.take 2)),
        parseIntHex (String.mk ((clean.data.drop 2).take 2)),
        parseIntHex (String.mk ((clean.data.drop 4).take 2)) with
    | some r, some g, some b => ⟨r, g, b, some 255⟩
    | _, _, _ => BLACK
  else BLACK

/-! ## Types  (src/src/ascii-render/types.ts) -/

/-- types.ts `SymbolSet`. -/
inductive SymbolSet where
  | ascii
  | half
  | quadrant
  | braille
  | sextant
deriving DecidableEq, Repr

/-- types.ts `ColorMode`. -/
inductive ColorMode where
  | none
  | truecolor
deriving DecidableEq, Repr

/-- types.ts `RenderOptions` (all fields required, as in the renderer's
merged options). -/
structure RenderOptions where
  symbolSet : SymbolSet
  colorMode : ColorMode
  threshold : Int
deriving DecidableEq, Repr

/-- types.ts `Cell`. -/
structure Cell where
  char : String
  fg : Color
  bg : Color
deriving DecidableEq, Repr

/-- types.ts `PixelBuffer`. -/
abbrev PixelBuffer := List (List Color)

/-- types.ts `Grid`. -/
abbrev Grid := List (List Cell)

/-- types.ts `SymbolDef`. -/
structure SymbolDef where
  char : String
  pattern : Nat
  width : Nat
  height : Nat
deriving DecidableEq, Repr

/-- types.ts `LineStyle` (gradient fields not modelled, see header). -/
structure LineStyle where
  pattern : Option (List Int) := none
  thickness : Option Int := none
deriving DecidableEq, Repr

/-! ## Symbol catalog  (src/src/ascii-render/symbols.ts) -/

/-- symbols.ts `ASCII_SYMBOLS` (density ramp, every non-blank glyph shares
pattern 1). -/
def ASCII_SYMBOLS : List SymbolDef := [
  ⟨" ", 0b0, 1, 1⟩,
  ⟨".", 0b1, 1, 1⟩,
  ⟨",", 0b1, 1, 1⟩,
  ⟨"-", 0b1, 1, 1⟩,
  ⟨"~", 0b1, 1, 1⟩,
  ⟨"+", 0b1, 1, 1⟩,
  ⟨"=", 0b1, 1, 1⟩,
  ⟨"*", 0b1, 1, 1⟩,
  ⟨"#", 0b1, 1, 1⟩,
  ⟨"@", 0b1, 1, 1⟩]

/-- symbols.ts `HALF_BLOCK_SYMBOLS`. -/
def HALF_BLOCK_SYMBOLS : List SymbolDef := [
  ⟨" ", 0b00, 1, 2⟩,
  ⟨"▀", 0b01, 1, 2⟩,
  ⟨"▄", 0b10, 1, 2⟩,
  ⟨"█", 0b11, 1, 2⟩]

/-- symbols.ts `QUADRANT_SYMBOLS`. -/
def QUADRANT_SYMBOLS : List SymbolDef := [
  ⟨" ", 0b0000, 2, 2⟩,
  ⟨"▘", 0b0001, 2, 2⟩,
  ⟨"▝", 0b0010, 2, 2⟩,
  ⟨"▀", 0b0011, 2, 2⟩,
  ⟨"▖", 0b0100, 2, 2⟩,
  ⟨"▌", 0b0101, 2, 2⟩,
  ⟨"▞", 0b0110, 2, 2⟩,
  ⟨"▛", 0b0111, 2, 2⟩,
  ⟨"▗", 0b1000, 2, 2⟩,
  ⟨"▚", 0b1001, 2, 2⟩,
  ⟨"▐", 0b1010, 2, 2⟩,
  ⟨"▜", 0b1011, 2, 2⟩,
  ⟨"▄", 0b1100, 2, 2⟩,
  ⟨"▙", 0b1101, 2, 2⟩,
  ⟨"▟", 0b1110, 2, 2⟩,
  ⟨"█", 0b1111, 2, 2⟩]

/-- symbols.ts `BRAILLE_BASE` (U+2800). -/
def BRAILLE_BASE : Nat := 0x2800

/-- symbols.ts `getBrailleChar`: String.fromCodePoint(0x2800 + (pattern & 0xff)). -/
def getBrailleChar (pattern : Nat) : String :=
  String.singleton (Char.ofNat (BRAILLE_BASE + (pattern &&& 0xff)))

/-- symbols.ts `generateBrailleSymbols`: one entry per 8-bit pattern. -/
def generateBrailleSymbols : List SymbolDef :=
  (List.range 256).map fun pattern => ⟨getBrailleChar pattern, pattern, 2, 4⟩

/-- symbols.ts `BRAILLE_SYMBOLS`. -/
def BRAILLE_SYMBOLS : List SymbolDef := generateBrailleSymbols

/-- symbols.ts `SEXTANT_SYMBOLS`. -/
def SEXTANT_SYMBOLS : List SymbolDef := [
  ⟨" ", 0b000000, 2, 3⟩,
  ⟨"🬀", 0b000001, 2, 3⟩,
  ⟨"🬁", 0b000010, 2, 3⟩,
  ⟨"🬂", 0b000011, 2, 3⟩,
  ⟨"🬃", 0b000100, 2, 3⟩,
  ⟨"🬄", 0b000101, 2, 3⟩,
  ⟨"🬅", 0b000110, 2, 3⟩,
  ⟨"🬆", 0b000111, 2, 3⟩,
  ⟨"🬇", 0b001000, 2, 3⟩,
  ⟨"🬈", 0b001001, 2, 3⟩,
  ⟨"🬉", 0b001010, 2, 3⟩,
  ⟨"🬊", 0b001011, 2, 3⟩,
  ⟨"🬋", 0b001100, 2, 3⟩,
  ⟨"🬌", 0b001101, 2, 3⟩,
  ⟨"🬍", 0b001110, 2, 3⟩,
  ⟨"🬎", 0b001111, 2, 3⟩,
  ⟨"🬏", 0b010000, 2, 3⟩,
  ⟨"🬐", 0b010001, 2, 3⟩,
  ⟨"🬑", 0b010010, 2, 3⟩,
  ⟨"🬒", 0b010011, 2, 3⟩,
  ⟨"🬓", 0b010100, 2, 3⟩,
  ⟨"▌", 0b010101, 2, 3⟩,
  ⟨"🬔", 0b010110, 2, 3⟩,
  ⟨"🬕", 0b010111, 2, 3⟩,
  ⟨"🬖", 0b011000, 2, 3⟩,
  ⟨"🬗", 0b011001, 2, 3⟩,
  ⟨"🬘", 0b011010, 2, 3⟩,
  ⟨"🬙", 0b011011, 2, 3⟩,
  ⟨"🬚", 0b011100, 2, 3⟩,
  ⟨"🬛", 0b011101, 2, 3⟩,
  ⟨"🬜", 0b011110, 2, 3⟩,
  ⟨"🬝", 0b011111, 2, 3⟩,
  ⟨"🬞", 0b100000, 2, 3⟩,
  ⟨"🬟", 0b100001, 2, 3⟩,
  ⟨"🬠", 0b100010, 2, 3⟩,
  ⟨"🬡", 0b100011, 2, 3⟩,
  ⟨"🬢", 0b100100, 2, 3⟩,
  ⟨"🬣", 0b100101, 2, 3⟩,
  ⟨"🬤", 0b100110, 2, 3⟩,
  ⟨"🬥", 0b100111, 2, 3⟩,
  ⟨"🬦", 0b101000, 2, 3⟩,
  ⟨"🬧", 0b101001, 2, 3⟩,
  ⟨"▐", 0b101010, 2, 3⟩,
  ⟨"🬨", 0b101011, 2, 3⟩,
  ⟨"🬩", 0b101100, 2, 3⟩,
  ⟨"🬪", 0b101101, 2, 3⟩,
  ⟨"🬫", 0b101110, 2, 3⟩,
  ⟨"🬬", 0b101111, 2, 3⟩,
  ⟨"🬭", 0b110000, 2, 3⟩,
  ⟨"🬮", 0b110001, 2, 3⟩,
  ⟨"🬯", 0b110010, 2, 3⟩,
  ⟨"🬰", 0b110011, 2, 3⟩,
  ⟨"🬱", 0b110100, 2, 3⟩,
  ⟨"🬲", 0b110101, 2, 3⟩,
  ⟨"🬳", 0b110110, 2, 3⟩,
  ⟨"🬴", 0b110111, 2, 3⟩,
  ⟨"🬵", 0b111000, 2, 3⟩,
  ⟨"🬶", 0b111001, 2, 3⟩,
  ⟨"🬷", 0b111010, 2, 3⟩,
  ⟨"🬸", 0b111011, 2, 3⟩,
  ⟨"🬹", 0b111100, 2, 3⟩,
  ⟨"🬺", 0b111101, 2, 3⟩,
  ⟨"🬻", 0b111110, 2, 3⟩,
  ⟨"█", 0b111111, 2, 3⟩]

/-- symbols.ts `getSymbolSet` (the SymbolSet enum is exhaustive in the
embedding, so the source's half-block fallback for an unrecognized name
cannot trigger). -/
def getSymbolSet (name : SymbolSet) : List SymbolDef :=
  match name with
  | SymbolSet.ascii => ASCII_SYMBOLS
  | SymbolSet.half => HALF_BLOCK_SYMBOLS
  | SymbolSet.quadrant => QUADRANT_SYMBOLS
  | SymbolSet.braille => BRAILLE_SYMBOLS
  | SymbolSet.sextant => SEXTANT_SYMBOLS

/-- symbols.ts `getSymbolDimensions`: width/height of the first entry,
(1,2) fallback for an empty table. -/
def getSymbolDimensions (name : SymbolSet) : Nat × Nat :=
  match (getSymbolSet name).head? with
  | some first => (first.width, first.height)
  | none => (1, 2)

/-! ## Region mapper  (mapper module of src/ascii-render) -/

/-- mapper `getPixelSafe`: out-of-bounds reads yield a copy of BLACK. -/
def getPixelSafe (pixels : PixelBuffer) (x y : Int) : Color :=
  let row? := if 0 ≤ y ∧ y.toNat < pixels.length then some (pixels.getD y.toNat []) else none
  match row? with
  | some row => if 0 ≤ x ∧ x.toNat < row.length then row.getD x.toNat BLACK else BLACK
  | none => BLACK

/-- Result record of the region mappers ({pattern, fg, bg}). -/
structure RegionResult where
  pattern : Nat
  fg : Color
  bg : Color
deriving DecidableEq, Repr

/-- Pixels of the w×h sub-grid at (startX, startY) in scan order
(row-major: y outer, x inner), exactly the order of the source's nested
for loops in `mapRegionToPattern`. -/
def regionScan (pixels : PixelBuffer) (startX startY : Int) (width height : Nat) :
    List Color :=
  (List.range height).flatMap fun y =>
    (List.range width).map fun (x : Nat) =>
      getPixelSafe pixels (startX + (x : Int)) (startY + (y : Int))

/-- mapper `mapRegionToPattern`.  The source's single pass pushing into
patternBits/fgColors/bgColors is expressed as one scan (`regionScan`,
preserving the loop order) and comprehensions over it; the bit-pattern
fold is the source's `bitPattern |= 1 << i` loop, where JS `<<` is a
32-bit operation shifting by i mod 32; the accumulator is kept as the
unsigned 32-bit image of the JS signed value (bit-for-bit identical, see
the header conventions). -/
def mapRegionToPattern (pixels : PixelBuffer) (startX startY : Int)
    (width height : Nat) (threshold : Int) : RegionResult :=
  let colors := regionScan pixels startX startY width height
  let patternBits := colors.map fun c => isPixelOn c threshold
  let fgColors := colors.filter fun c => isPixelOn c threshold
  let bgColors := colors.filter fun c => !(isPixelOn c threshold)
  let bitPattern := (List.range patternBits.length).foldl
    (fun acc i => if patternBits.getD i false then acc ||| (1 <<< (i % 32)) else acc) 0
  ⟨bitPattern, averageColors fgColors, averageColors bgColors⟩

/-- mapper `countBits` (the source halves with v >>= 1 until v is 0). -/
def countBits (n : Nat) : Nat :=
  if h : n = 0 then 0
  else (n &&& 1) + countBits (n >>> 1)
decreasing_by
  simp only [Nat.shiftRight_one]
  exact Nat.div_lt_self (Nat.pos_of_ne_zero h) one_lt_two

/-- mapper `findBestSymbol`: first exact pattern match, otherwise the first
symbol minimizing Hamming distance (the source starts from symbols[0] with
distance infinity, so the first strict improvement wins). -/
def findBestSymbol (pattern : Nat) (symbols : List SymbolDef) : SymbolDef :=
  match symbols.find? (fun s => s.pattern == pattern) with
  | some s => s
  | none =>
    let first : SymbolDef := symbols.headD ⟨" ", 0, 1, 1⟩
    (symbols.foldl
      (fun acc s =>
        let distance := countBits (pattern ^^^ s.pattern)
        match acc.2 with
        | none => (s, some distance)
        | some minDistance => if distance < minDistance then (s, some distance) else acc)
      ((first, none) : SymbolDef × Option Nat)).1

/-- mapper `BRAILLE_DOT_MAP`: (x, y, bit mask) per Unicode dot numbering. -/
def BRAILLE_DOT_MAP : List (Nat × Nat × Nat) := [
  (0, 0, 0b00000001),
  (0, 1, 0b00000010),
  (0, 2, 0b00000100),
  (0, 3, 0b01000000),
  (1, 0, 0b00001000),
  (1, 1, 0b00010000),
  (1, 2, 0b00100000),
  (1, 3, 0b10000000)]

/-- mapper `mapBrailleRegion`: 2×4 region via the braille dot map. -/
def mapBrailleRegion (pixels : PixelBuffer) (startX startY : Int)
    (threshold : Int) : RegionResult :=
  let pattern := BRAILLE_DOT_MAP.foldl
    (fun acc dot =>
      if isPixelOn (getPixelSafe pixels (startX + dot.1) (startY + dot.2.1)) threshold
      then acc ||| dot.2.2 else acc) 0
  let fgColors := BRAILLE_DOT_MAP.filterMap fun dot =>
    let c := getPixelSafe pixels (startX + dot.1) (startY + dot.2.1)
    if isPixelOn c threshold then some c else none
  let bgColors := BRAILLE_DOT_MAP.filterMap fun dot =>
    let c := getPixelSafe pixels (startX + dot.1) (startY + dot.2.1)
    if isPixelOn c threshold then none else some c
  ⟨pattern, averageColors fgColors, averageColors bgColors⟩

/-- mapper `mapPixelsToCells`: ceil-divided cell grid; empty or zero-width
buffer yields the empty grid; braille takes the O(1) getBrailleChar path,
every other set resolves through findBestSymbol. -/
def mapPixelsToCells (pixels : PixelBuffer) (symbolSetName : SymbolSet)
    (threshold : Int) : Grid :=
  let symbols := getSymbolSet symbolSetName
  let dims := getSymbolDimensions symbolSetName
  if pixels.length = 0 then []
  else
    let firstRow := pixels.headD []
    if firstRow.length = 0 then []
    else
      let pixelHeight := pixels.length
      let pixelWidth := firstRow.length
      let cellWidth := (pixelWidth + dims.1 - 1) / dims.1
      let cellHeight := (pixelHeight + dims.2 - 1) / dims.2
      (List.range cellHeight).map fun cy =>
        (List.range cellWidth).map fun cx =>
          let startX : Int := (cx * dims.1 : Nat)
          let startY : Int := (cy * dims.2 : Nat)
          if symbolSetName = SymbolSet.braille then
            let result := mapBrailleRegion pixels startX startY threshold
            ⟨getBrailleChar result.pattern, result.fg, result.bg⟩
          else
            let result := mapRegionToPattern pixels startX startY dims.1 dims.2 threshold
            let symbol := findBestSymbol result.pattern symbols
            ⟨symbol.char, result.fg, result.bg⟩

/-! ## Renderer  (src/src/ascii-render/renderer.ts) -/

/-- Serialization of one grid row, following `gridToString`'s inner for
loop: lastFg/lastBg start null for every row; an escape is emitted exactly
when there is no last-emitted color or it differs per `colorsEqual`. -/
def rowToString (options : RenderOptions) :
    List Cell → Option Color → Option Color → String → String
  | [], _, _, line => line
  | cell :: rest, lastFg, lastBg, line =>
    if options.colorMode = ColorMode.truecolor then
      let emitFg := match lastFg with
        | Option.none => true
        | some c => !(colorsEqual c cell.fg)
      let line1 := if emitFg then line ++ fgTruecolor cell.fg else line
      let lastFg1 := if emitFg then some cell.fg else lastFg
      let emitBg := match lastBg with
        | Option.none => true
        | some c => !(colorsEqual c cell.bg)
      let line2 := if emitBg then line1 ++ bgTruecolor cell.bg else line1
      let lastBg1 := if emitBg then some cell.bg else lastBg
      rowToString options rest lastFg1 lastBg1 (line2 ++ cell.char)
    else
      rowToString options rest lastFg lastBg (line ++ cell.char)

/-- renderer.ts `gridToString`: rows serialized independently, truecolor
rows terminated with the reset escape, joined with newlines. -/
def gridToString (grid : Grid) (options : RenderOptions) : String :=
  if grid.length = 0 then ""
  else
    String.intercalate "\n" (grid.map fun row =>
      let line := rowToString options row Option.none Option.none ""
      if options.colorMode = ColorMode.truecolor then line ++ resetColors else line)

/-- renderer.ts `createBuffer`: throws (Except.error) on non-positive
dimensions, otherwise height rows of width independent copies of the fill
color (BLACK when omitted). -/
def createBuffer (width height : Int) (fillColor : Option Color := Option.none) :
    Except String PixelBuffer :=
  if width ≤ 0 ∨ height ≤ 0 then
    Except.error (s!"Buffer dimensions must be positive: {width}x{height}")
  else
    let color := fillColor.getD BLACK
    Except.ok (List.replicate height.toNat (List.replicate width.toNat color))

/-- In-bounds test matching the guards of `setPixel`/`getPixel`. -/
def inBounds (buffer : PixelBuffer) (x y : Int) : Bool :=
  decide (0 ≤ y) && decide (y.toNat < buffer.length)
    && decide (0 ≤ x) && decide (x.toNat < (buffer.getD y.toNat []).length)

/-- renderer.ts `setPixel`: bounds-checked write, out-of-bounds writes are
dropped. -/
def setPixel (buffer : PixelBuffer) (x y : Int) (color : Color) : PixelBuffer :=
  if 0 ≤ y ∧ y.toNat < buffer.length then
    let row := buffer.getD y.toNat []
    if 0 ≤ x ∧ x.toNat < row.length then
      buffer.set y.toNat (row.set x.toNat color)
    else buffer
  else buffer

/-- renderer.ts `getPixel`: bounds-checked read, none outside. -/
def getPixel (buffer : PixelBuffer) (x y : Int) : Option Color :=
  if 0 ≤ y ∧ y.toNat < buffer.length then
    let row := buffer.getD y.toNat []
    if 0 ≤ x ∧ x.toNat < row.length then some (row.getD x.toNat BLACK)
    else Option.none
  else Option.none

/-- renderer.ts `drawThickPixelPerpendicular`: a run of `thickness` pixels
perpendicular to the line's dominant axis, starting floor(thickness/2)
before the primary pixel. -/
def drawThickPixelPerpendicular (buffer : PixelBuffer) (x y : Int)
    (color : Color) (thickness : Int) (isSteep : Bool) : PixelBuffer :=
  if isSteep then
    let start := x - thickness.fdiv 2
    (List.range thickness.toNat).foldl
      (fun buf (dx : Nat) => setPixel buf (start + (dx : Int)) y color) buffer
  else
    let start := y - thickness.fdiv 2
    (List.range thickness.toNat).foldl
      (fun buf (dy : Nat) => setPixel buf x (start + (dy : Int)) color) buffer

/-- The dash-pattern test of `drawLine`'s loop: with no pattern every step
draws; with a pattern, step s draws exactly when pattern[s mod length] is 1
(an empty pattern never draws: in the source s % 0 is NaN and
pattern[NaN] is undefined). -/
def shouldDrawAt (style : Option LineStyle) (step : Nat) : Bool :=
  match style.bind (fun s => s.pattern) with
  | Option.none => true
  | some pattern => pattern.getD (step % pattern.length) 0 == 1

/-- Per-line constants of `drawLine` computed before its loop. -/
structure BresParams where
  x2 : Int
  y2 : Int
  dx : Nat
  dy : Nat
  sx : Int
  sy : Int
  color : Color
  style : Option LineStyle

/-- Body of `drawLine`'s while(true) loop, with explicit fuel (none models
a loop that has not broken within `fuel` iterations).  On break it returns
the buffer together with the current x, y and step, which are exactly the
values in scope at the source's `break`.  Gradient colors are not modelled
(see the file header); the drawn color is the line color. -/
def bresLoop (p : BresParams) :
    Nat → PixelBuffer → Int → Int → Int → Nat → Option (PixelBuffer × Int × Int × Nat)
  | 0, _, _, _, _, _ => Option.none
  | fuel + 1, buffer, x, y, err, step =>
    let shouldDraw := shouldDrawAt p.style step
    let thickness := (p.style.bind (fun s => s.thickness)).getD 1
    let buffer1 :=
      if shouldDraw then
        if thickness > 1 then
          drawThickPixelPerpendicular buffer x y p.color thickness (decide (p.dy > p.dx))
        else setPixel buffer x y p.color
      else buffer
    if x = p.x2 ∧ y = p.y2 then some (buffer1, x, y, step)
    else
      let e2 := 2 * err
      let x1 := if e2 > -(p.dy : Int) then x + p.sx else x
      let err1 := if e2 > -(p.dy : Int) then err - p.dy else err
      let y1 := if e2 < (p.dx : Int) then y + p.sy else y
      let err2 := if e2 < (p.dx : Int) then err1 + p.dx else err1
      bresLoop p fuel buffer1 x1 y1 err2 (step + 1)

/-- The BresParams `drawLine` sets up for its loop. -/
def drawLineParams (x1 y1 x2 y2 : Int) (color : Color) (style : Option LineStyle) :
    BresParams :=
  { x2 := x2, y2 := y2
    dx := (x2 - x1).natAbs
    dy := (y2 - y1).natAbs
    sx := if x1 < x2 then 1 else -1
    sy := if y1 < y2 then 1 else -1
    color := color
    style := style }

/-- renderer.ts `drawLine`: Bresenham between integer endpoints.  The
source's finiteness guard always passes for integer coordinates.  The fuel
max(dx,dy)+1 is exactly the iteration count established by the termination
theorem; the none fallback is therefore unreachable. -/
def drawLine (buffer : PixelBuffer) (x1 y1 x2 y2 : Int) (color : Color)
    (style : Option LineStyle := Option.none) : PixelBuffer :=
  let p := drawLineParams x1 y1 x2 y2 color style
  match bresLoop p (max p.dx p.dy + 1) buffer x1 y1 ((p.dx : Int) - (p.dy : Int)) 0 with
  | some (result, _, _, _) => result
  | Option.none => buffer

/-- Projection of a bresLoop break result onto the observable final
position and step counter (discarding the buffer). -/
def bresOut (r : PixelBuffer × Int × Int × Nat) : Int × Int × Nat :=
  (r.2.1, r.2.2.1, r.2.2.2)

/-! ## Serializer characterization (spec side, for the refinement theorem)

These definitions are written from the claim's wording, not from the
source: in truecolor mode an escape is emitted before exactly those cells
whose color differs (per colorsEqual) from the previous cell's — the first
cell always emits both — and each row ends with the reset escape; rows are
independent; mode none emits the glyphs alone. -/

/-- Tail of the claimed truecolor row serialization: given the previous
cell, each cell emits a foreground (background) escape exactly when its
foreground (background) differs from the previous cell's. -/
def rowSpecTailTC (prev : Cell) : List Cell → String
  | [] => ""
  | cell :: rest =>
    (if colorsEqual prev.fg cell.fg then "" else fgTruecolor cell.fg)
      ++ (if colorsEqual prev.bg cell.bg then "" else bgTruecolor cell.bg)
      ++ cell.char ++ rowSpecTailTC cell rest

/-- The claimed truecolor serialization of one row: both escapes before the
first cell, difference-triggered escapes afterwards, reset at the end. -/
def rowSpecTC : List Cell → String
  | [] => resetColors
  | cell :: rest =>
    fgTruecolor cell.fg ++ bgTruecolor cell.bg ++ cell.char
      ++ rowSpecTailTC cell rest ++ resetColors

/-- The claimed mode-none serialization of one row: the glyphs alone, with
no escape sequences. -/
def rowSpecNone : List Cell → String
  | [] => ""
  | cell :: rest => cell.char ++ rowSpecNone rest

/-! ## Basic arithmetic lemmas -/

/-- Math.round of an integer is that integer. -/
lemma jsRound_intCast (n : Int) : jsRound (n : Rat) = n := by
  unfold jsRound
  rw [Int.floor_int_add]
  norm_num

/-- clampByte is the identity on byte-range integers. -/
lemma clampByte_intCast (n : Int) (h0 : 0 ≤ n) (h255 : n ≤ 255) :
    clampByte (n : Rat) = n := by
  unfold clampByte
  rw [jsRound_intCast]
  omega

/-! ## C1: braille fast path versus generic catalog search -/

set_option maxRecDepth 8192 in
/-- C1: for every 8-bit pattern p, findBestSymbol over the braille table
returns a symbol whose glyph is exactly the closed-form codepoint
0x2800 + p computed by getBrailleChar, so the O(1) braille fast path and
the generic catalog search produce the same glyph for every pattern. -/
theorem braille_fastpath_agrees_with_catalog (p : Nat) (hp : p < 256) :
    (findBestSymbol p BRAILLE_SYMBOLS).char = getBrailleChar p := by
  revert p
  decide

/-- Witness for C1 at pattern 5. -/
theorem braille_fastpath_agrees_with_catalog_witness :
    5 < 256 ∧ (findBestSymbol 5 BRAILLE_SYMBOLS).char = getBrailleChar 5 :=
  ⟨by decide, braille_fastpath_agrees_with_catalog 5 (by decide)⟩

/-! ## C7: createBuffer validation -/

/-- C7: createBuffer fails with the invalid-dimensions error exactly when
width ≤ 0 or height ≤ 0 (the only hard failure in the library: every other
embedded operation is total), and for positive dimensions returns height
rows of width independent copies of the fill color, BLACK when omitted. -/
theorem createBuffer_spec (width height : Int) (fillColor : Option Color) :
    (width ≤ 0 ∨ height ≤ 0 →
      createBuffer width height fillColor =
        Except.error (s!"Buffer dimensions must be positive: {width}x{height}")) ∧
    (0 < width → 0 < height →
      createBuffer width height fillColor =
        Except.ok (List.replicate height.toNat
          (List.replicate width.toNat (fillColor.getD BLACK)))) := by
  constructor
  · intro h
    unfold createBuffer
    rw [if_pos h]
  · intro hw hh
    unfold createBuffer
    rw [if_neg (by omega)]

/-- Witness for C7: a 2×3 buffer of the default fill, and the error for a
zero width. -/
theorem createBuffer_spec_witness :
    createBuffer 2 3 Option.none =
      Except.ok (List.replicate 3 (List.replicate 2 BLACK)) ∧
    createBuffer 0 3 Option.none =
      Except.error "Buffer dimensions must be positive: 0x3" :=
  ⟨(createBuffer_spec 2 3 Option.none).2 (by decide) (by decide),
   (createBuffer_spec 0 3 Option.none).1 (by decide)⟩

/-- clampByte at the specific byte value 255 (Rat arithmetic is not kernel
reducible, so concrete clampByte values are proved through
clampByte_intCast). -/
lemma clampByte_255 : clampByte 255 = 255 := by
  have h := clampByte_intCast 255 (by norm_num) (by norm_num)
  simpa using h

/-- rgb at (255,255,255,255) evaluates to the literal color. -/
lemma rgb_255 : rgb 255 255 255 (some 255) = ⟨255, 255, 255, some 255⟩ := by
  unfold rgb
  simp [clampByte_255]

/-! ## C8: hex parsing -/

/-- C8 counterexample: the claim says every input that is not of the form
#RGB / #RRGGBB, and every input containing a non-hex digit, yields opaque
black.  The code accepts "ABC" (no leading '#') as a color, and parses
"#1g0000" to r = 1 because parseInt keeps the valid prefix "1" of the
group "1g"; neither result is black. -/
theorem hex_claim_counterexample :
    hex "ABC" = ⟨170, 187, 204, some 255⟩ ∧ hex "ABC" ≠ BLACK ∧
    hex "#1g0000" = ⟨1, 0, 0, some 255⟩ ∧ hex "#1g0000" ≠ BLACK := by
  decide

/-- C8 amended: hex never throws (it is a total function); any input whose
content after removing the first '#' — the '#' is optional and may sit
anywhere — is not exactly 3 or 6 characters yields opaque black; and the
claim's concrete identities hold: hex "#ABC" = hex "#AABBCC",
hex "#FFFFFF" = rgb(255,255,255,255), hex "not-hex" = hex "#12" = black.
A non-hex digit inside a group only forces black when the group has no
parseable hex prefix. -/
theorem hex_amended_spec :
    (∀ s : String, (dropFirstHash s.data).length ≠ 3 →
      (dropFirstHash s.data).length ≠ 6 → hex s = BLACK) ∧
    hex "#ABC" = hex "#AABBCC" ∧
    hex "#FFFFFF" = rgb 255 255 255 (some 255) ∧
    hex "not-hex" = BLACK ∧ hex "#12" = BLACK := by
  refine ⟨?_, by decide, by rw [rgb_255]; decide, by decide, by decide⟩
  intro s h3 h6
  unfold hex
  have hlen : (String.mk (dropFirstHash s.data)).length = (dropFirstHash s.data).length :=
    rfl
  rw [if_neg (by rw [hlen]; exact h3), if_neg (by rw [hlen]; exact h6)]

/-- Witness for C8's amended universal clause at the input "zz". -/
theorem hex_amended_spec_witness :
    (dropFirstHash "zz".data).length ≠ 3 ∧ (dropFirstHash "zz".data).length ≠ 6 ∧
    hex "zz" = BLACK :=
  ⟨by decide, by decide, hex_amended_spec.1 "zz" (by decide) (by decide)⟩

/-! ## C9: blendColors endpoints -/

/-- C9 counterexample: the claim says fg alpha 0 returns bg unchanged, but
when bg's alpha is also 0 the combined alpha is 0 and the code returns
fully transparent black, not bg. -/
theorem blendColors_claim_counterexample :
    blendColors ⟨7, 7, 7, some 0⟩ ⟨5, 6, 7, some 0⟩ = ⟨0, 0, 0, some 0⟩ ∧
    blendColors ⟨7, 7, 7, some 0⟩ ⟨5, 6, 7, some 0⟩ ≠ ⟨5, 6, 7, some 0⟩ := by
  have hval : blendColors ⟨7, 7, 7, some 0⟩ ⟨5, 6, 7, some 0⟩ = ⟨0, 0, 0, some 0⟩ := by
    unfold blendColors
    norm_num [TRANSPARENT]
  exact ⟨hval, by rw [hval]; decide⟩

/-- C9 amended: for colors with byte-range channels, blendColors with fg
alpha 255 (or absent) keeps fg's r, g, b; with fg alpha 0 and bg's
effective alpha nonzero it returns bg's r, g, b and effective alpha
unchanged; with both alphas 0 it returns fully transparent black (the
guarded degenerate case the original claim overlooks). -/
theorem blendColors_amended_spec (fg bg : Color) :
    ((fg.a = some 255 ∨ fg.a = Option.none) →
      0 ≤ fg.r → fg.r ≤ 255 → 0 ≤ fg.g → fg.g ≤ 255 → 0 ≤ fg.b → fg.b ≤ 255 →
      (blendColors fg bg).r = fg.r ∧ (blendColors fg bg).g = fg.g ∧
        (blendColors fg bg).b = fg.b) ∧
    (fg.a = some 0 → bg.a.getD 255 ≠ 0 →
      0 ≤ bg.r → bg.r ≤ 255 → 0 ≤ bg.g → bg.g ≤ 255 → 0 ≤ bg.b → bg.b ≤ 255 →
      0 ≤ bg.a.getD 255 → bg.a.getD 255 ≤ 255 →
      blendColors fg bg = ⟨bg.r, bg.g, bg.b, some (bg.a.getD 255)⟩) ∧
    (fg.a = some 0 → bg.a = some 0 → blendColors fg bg = TRANSPARENT) := by
  refine ⟨?_, ?_, ?_⟩
  · intro ha hr0 hr1 hg0 hg1 hb0 hb1
    have hA : fg.a.getD 255 = 255 := by rcases ha with h | h <;> simp [h]
    have hfgA : ((fg.a.getD 255 : Int) : Rat) / 255 = 1 := by rw [hA]; norm_num
    simp only [blendColors, hfgA, sub_self, mul_zero, add_zero, mul_one, div_one]
    rw [if_neg (by norm_num)]
    exact ⟨clampByte_intCast _ hr0 hr1, clampByte_intCast _ hg0 hg1,
      clampByte_intCast _ hb0 hb1⟩
  · intro ha hne hr0 hr1 hg0 hg1 hb0 hb1 ha0 ha1
    have hfgA : ((fg.a.getD 255 : Int) : Rat) / 255 = 0 := by rw [ha]; norm_num
    have hbgA : ((bg.a.getD 255 : Int) : Rat) / 255 ≠ 0 :=
      div_ne_zero (Int.cast_ne_zero.mpr hne) (by norm_num)
    simp only [blendColors, hfgA, sub_zero, mul_one, mul_zero, zero_add, zero_mul]
    rw [if_neg hbgA]
    have hch : ∀ c : Int, ((c : Rat) * ((bg.a.getD 255 : Int) : Rat) / 255) /
        (((bg.a.getD 255 : Int) : Rat) / 255) = (c : Rat) := fun c => by
      rw [mul_div_assoc]
      exact mul_div_cancel_right₀ _ hbgA
    have halpha : ((bg.a.getD 255 : Int) : Rat) / 255 * 255 = ((bg.a.getD 255 : Int) : Rat) :=
      div_mul_cancel₀ _ (by norm_num)
    rw [show (bg.r : Rat) * (((bg.a.getD 255 : Int) : Rat) / 255) =
          (bg.r : Rat) * ((bg.a.getD 255 : Int) : Rat) / 255 from (mul_div_assoc _ _ _).symm]
    rw [show (bg.g : Rat) * (((bg.a.getD 255 : Int) : Rat) / 255) =
          (bg.g : Rat) * ((bg.a.getD 255 : Int) : Rat) / 255 from (mul_div_assoc _ _ _).symm]
    rw [show (bg.b : Rat) * (((bg.a.getD 255 : Int) : Rat) / 255) =
          (bg.b : Rat) * ((bg.a.getD 255 : Int) : Rat) / 255 from (mul_div_assoc _ _ _).symm]
    rw [hch bg.r, hch bg.g, hch bg.b, halpha]
    rw [clampByte_intCast _ hr0 hr1, clampByte_intCast _ hg0 hg1,
      clampByte_intCast _ hb0 hb1, clampByte_intCast _ ha0 ha1]
  · intro ha hb
    have hfgA : ((fg.a.getD 255 : Int) : Rat) / 255 = 0 := by rw [ha]; norm_num
    have hbgA : ((bg.a.getD 255 : Int) : Rat) / 255 = 0 := by rw [hb]; norm_num
    simp [blendColors, hfgA, hbgA]

/-! ## C2: ANSI serializer -/

/-- colorsEqual is reflexive. -/
lemma colorsEqual_refl (c : Color) : colorsEqual c c = true := by
  simp [colorsEqual]

/-- colorsEqual-equivalent colors compare equal against any third color. -/
lemma colorsEqual_congr {a b : Color} (h : colorsEqual a b = true) (c : Color) :
    colorsEqual a c = colorsEqual b c := by
  unfold colorsEqual at *
  simp only [Bool.and_eq_true, beq_iff_eq] at h
  obtain ⟨⟨⟨hr, hg⟩, hb⟩, ha⟩ := h
  rw [hr, hg, hb, ha]

/-- Invariant of the truecolor row loop: once the last-emitted colors are
colorsEqual-equivalent to the previous cell's colors, the remaining loop
output is the claimed difference-triggered serialization. -/
lemma rowToString_truecolor_tail (options : RenderOptions)
    (hmode : options.colorMode = ColorMode.truecolor) (rest : List Cell) :
    ∀ (prev : Cell) (f g : Color) (line : String),
      colorsEqual f prev.fg = true → colorsEqual g prev.bg = true →
      rowToString options rest (some f) (some g) line = line ++ rowSpecTailTC prev rest := by
  induction rest with
  | nil =>
    intro prev f g line hf hg
    simp [rowToString, rowSpecTailTC]
  | cons cell rest ih =>
    intro prev f g line hf hg
    have hfg : colorsEqual f cell.fg = colorsEqual prev.fg cell.fg :=
      colorsEqual_congr hf cell.fg
    have hbg : colorsEqual g cell.bg = colorsEqual prev.bg cell.bg :=
      colorsEqual_congr hg cell.bg
    rw [rowToString, if_pos hmode, rowSpecTailTC]
    cases hc1 : colorsEqual prev.fg cell.fg <;> cases hc2 : colorsEqual prev.bg cell.bg <;>
      simp only [hfg, hbg, hc1, hc2, Bool.not_false, Bool.not_true, Bool.false_eq_true,
        if_true, if_false] <;>
      rw [ih cell _ _ _ (by first | exact colorsEqual_refl cell.fg | simpa [hfg, hc1] using hf)
        (by first | exact colorsEqual_refl cell.bg | simpa [hbg, hc2] using hg)] <;>
      simp [String.append_assoc, String.empty_append]

/-- The truecolor row serialization equals the claimed form: both escapes
for the first cell, difference-triggered escapes afterwards, reset at the
end of every row. -/
lemma rowToString_truecolor (options : RenderOptions)
    (hmode : options.colorMode = ColorMode.truecolor) (row : List Cell) :
    rowToString options row Option.none Option.none "" ++ resetColors = rowSpecTC row := by
  cases row with
  | nil => simp [rowToString, rowSpecTC, String.empty_append]
  | cons cell rest =>
    rw [rowToString, if_pos hmode]
    simp only [if_true, ite_true]
    rw [rowToString_truecolor_tail options hmode rest cell cell.fg cell.bg _
      (colorsEqual_refl cell.fg) (colorsEqual_refl cell.bg)]
    rw [rowSpecTC]
    simp [String.append_assoc, String.empty_append]

/-- The mode-none row loop appends the glyphs alone. -/
lemma rowToString_none (options : RenderOptions)
    (hmode : options.colorMode = ColorMode.none) (cells : List Cell) :
    ∀ (lastFg lastBg : Option Color) (line : String),
      rowToString options cells lastFg lastBg line = line ++ rowSpecNone cells := by
  induction cells with
  | nil =>
    intro lastFg lastBg line
    simp [rowToString, rowSpecNone]
  | cons cell rest ih =>
    intro lastFg lastBg line
    simp only [rowToString]
    rw [if_neg (by simp [hmode]), ih, rowSpecNone]
    simp [String.append_assoc]

/-- C2: in truecolor mode gridToString serializes every row independently,
emitting a foreground (background) escape before exactly those cells whose
foreground (background) differs per colorsEqual from the color last
emitted in that row — because the loop's last-emitted color is always
colorsEqual-equivalent to the previous cell's, this is the previous-cell
difference — with the first cell of every row emitting both escapes and
every row ending with the reset escape; no color state crosses rows.  In
color mode none the output is the glyphs alone, with no escape codes. -/
theorem gridToString_spec (grid : Grid) (options : RenderOptions) :
    (options.colorMode = ColorMode.truecolor →
      gridToString grid options = String.intercalate "\n" (grid.map rowSpecTC)) ∧
    (options.colorMode = ColorMode.none →
      gridToString grid options = String.intercalate "\n" (grid.map rowSpecNone)) := by
  constructor
  · intro hmode
    unfold gridToString
    by_cases hempty : grid.length = 0
    · rw [if_pos hempty]
      rw [List.length_eq_zero.mp hempty]
      rfl
    · rw [if_neg hempty]
      congr 1
      apply List.map_congr_left
      intro row _
      rw [if_pos hmode]
      exact rowToString_truecolor options hmode row
  · intro hmode
    unfold gridToString
    by_cases hempty : grid.length = 0
    · rw [if_pos hempty]
      rw [List.length_eq_zero.mp hempty]
      rfl
    · rw [if_neg hempty]
      congr 1
      apply List.map_congr_left
      intro row _
      rw [if_neg (by rw [hmode]; intro hcontra; cases hcontra)]
      rw [rowToString_none options hmode row Option.none Option.none ""]
      exact String.empty_append _

/-- Witness for C2 on a concrete two-row grid in both color modes. -/
theorem gridToString_spec_witness :
    ((⟨SymbolSet.half, ColorMode.truecolor, 128⟩ : RenderOptions).colorMode =
        ColorMode.truecolor ∧
      gridToString [[⟨"A", WHITE, BLACK⟩, ⟨"B", WHITE, BLACK⟩], [⟨"C", BLACK, WHITE⟩]]
          ⟨SymbolSet.half, ColorMode.truecolor, 128⟩ =
        String.intercalate "\n"
          ([[⟨"A", WHITE, BLACK⟩, ⟨"B", WHITE, BLACK⟩], [⟨"C", BLACK, WHITE⟩]].map rowSpecTC)) ∧
    ((⟨SymbolSet.half, ColorMode.none, 128⟩ : RenderOptions).colorMode = ColorMode.none ∧
      gridToString [[⟨"A", WHITE, BLACK⟩, ⟨"B", WHITE, BLACK⟩], [⟨"C", BLACK, WHITE⟩]]
          ⟨SymbolSet.half, ColorMode.none, 128⟩ =
        String.intercalate "\n"
          ([[⟨"A", WHITE, BLACK⟩, ⟨"B", WHITE, BLACK⟩], [⟨"C", BLACK, WHITE⟩]].map rowSpecNone)) :=
  ⟨⟨rfl, (gridToString_spec _ _).1 rfl⟩, ⟨rfl, (gridToString_spec _ _).2 rfl⟩⟩

/-! ## C3: region mapper -/

/-- getD of a mapped range at an in-range index. -/
lemma getD_map_range {α : Type} (n i : Nat) (f : Nat → α) (d : α) (h : i < n) :
    ((List.range n).map f).getD i d = f i := by
  rw [List.getD_eq_getElem?_getD, List.getElem?_map, List.getElem?_range h]
  rfl

/-- Bit b of the 32-bit `|= 1 << j` fold (shift count taken mod 32),
generalized over the accumulator: the fold adds exactly the bits j mod 32
of the on indices j. -/
lemma testBit_orshift32_aux (p : Nat → Bool) : ∀ (n acc b : Nat),
    (((List.range n).foldl
      (fun a j => if p j then a ||| 1 <<< (j % 32) else a) acc)).testBit b
    = (acc.testBit b || ((List.range n).any fun j => decide (j % 32 = b) && p j)) := by
  intro n
  induction n with
  | zero =>
    intro acc b
    simp
  | succ n ih =>
    intro acc b
    rw [List.range_succ, List.foldl_append, List.foldl_cons, List.foldl_nil,
      List.any_append, List.any_cons, List.any_nil]
    by_cases hp : p n
    · rw [if_pos hp, Nat.testBit_or, ih acc b]
      have h1 : (1 <<< (n % 32)).testBit b = decide (n % 32 = b) := by
        rw [Nat.shiftLeft_eq, one_mul, Nat.testBit_two_pow]
      rw [h1, hp]
      simp [Bool.or_assoc]
    · rw [if_neg hp, ih acc b]
      have hp' : p n = false := Bool.eq_false_iff.mpr hp
      simp [hp']

/-- Bit b of the source's `bitPattern |= 1 << i` fold over a boolean list:
set exactly when some on index aliases onto b mod 32. -/
lemma testBit_patternFold32 (bs : List Bool) (b : Nat) :
    (((List.range bs.length).foldl
      (fun acc j => if bs.getD j false then acc ||| 1 <<< (j % 32) else acc) 0)).testBit b
    = ((List.range bs.length).any fun j => decide (j % 32 = b) && bs.getD j false) := by
  have h := testBit_orshift32_aux (fun j => bs.getD j false) bs.length 0 b
  simpa using h

/-- `any` over an index range only depends on the predicate below the
bound. -/
lemma any_range_congr (n : Nat) (p q : Nat → Bool) (h : ∀ j, j < n → p j = q j) :
    (List.range n).any p = (List.range n).any q := by
  induction n with
  | zero => simp
  | succ n ih =>
    rw [List.range_succ, List.any_append, List.any_append,
      ih (fun j hj => h j (Nat.lt_succ_of_lt hj))]
    simp [h n (Nat.lt_succ_self n)]

/-- Below 33 indices the mod-32 aliasing is invisible: the aliased-bit
disjunction collapses to the single index i. -/
lemma any_range_mod32_small (n : Nat) (hn : n ≤ 32) (q : Nat → Bool) (i : Nat) (hi : i < n) :
    ((List.range n).any fun j => decide (j % 32 = i) && q j) = q i := by
  cases hq : q i with
  | true =>
    apply List.any_eq_true.mpr
    refine ⟨i, List.mem_range.mpr hi, ?_⟩
    have hmod : i % 32 = i := Nat.mod_eq_of_lt (lt_of_lt_of_le hi hn)
    simp [hmod, hq]
  | false =>
    cases hv : (List.range n).any fun j => decide (j % 32 = i) && q j with
    | false => rfl
    | true =>
      exfalso
      obtain ⟨j, hjmem, hjp⟩ := List.any_eq_true.mp hv
      have hjlt : j < n := List.mem_range.mp hjmem
      simp only [Bool.and_eq_true, decide_eq_true_eq] at hjp
      obtain ⟨hji, hq2⟩ := hjp
      rw [Nat.mod_eq_of_lt (lt_of_lt_of_le hjlt hn)] at hji
      rw [hji, hq] at hq2
      exact Bool.false_ne_true hq2

/-- The region scan enumerates exactly the pixels at
(startX + i mod w, startY + i div w) for i below h·w, in scan order. -/
lemma regionScan_eq_map (pixels : PixelBuffer) (sX sY : Int) (w h : Nat) :
    regionScan pixels sX sY w h =
      (List.range (h * w)).map fun i =>
        getPixelSafe pixels (sX + ((i % w : Nat) : Int)) (sY + ((i / w : Nat) : Int)) := by
  rcases Nat.eq_zero_or_pos w with hw | hw
  · subst hw
    simp [regionScan]
  · induction h with
    | zero => simp [regionScan]
    | succ h ih =>
      unfold regionScan at *
      rw [List.range_succ, List.flatMap_append, ih]
      rw [show (h + 1) * w = h * w + w by ring, List.range_add, List.map_append]
      congr 1
      rw [List.flatMap_cons, List.flatMap_nil, List.append_nil, List.map_map]
      apply List.map_congr_left
      intro x hx
      have hxw : x < w := List.mem_range.mp hx
      have hmod : (h * w + x) % w = x := by
        rw [Nat.add_comm, Nat.add_mul_mod_self_right, Nat.mod_eq_of_lt hxw]
      have hdiv : (h * w + x) / w = h := by
        rw [Nat.add_comm, Nat.add_mul_div_right _ _ hw, Nat.div_eq_of_lt hxw, Nat.zero_add]
      show getPixelSafe pixels (sX + (x : Int)) (sY + (h : Int)) =
        getPixelSafe pixels (sX + (((h * w + x) % w : Nat) : Int))
          (sY + (((h * w + x) / w : Nat) : Int))
      rw [hmod, hdiv]

/-- clampByte at 0. -/
lemma clampByte_zero : clampByte 0 = 0 := by
  have h := clampByte_intCast 0 (by norm_num) (by norm_num)
  simpa using h

/-- getBrightness evaluated through an exact integer luma value. -/
lemma getBrightness_eval (c : Color) (v : Int)
    (h : (0.299 : Rat) * c.r + (0.587 : Rat) * c.g + (0.114 : Rat) * c.b = (v : Rat))
    (h0 : 0 ≤ v) (h255 : v ≤ 255) : getBrightness c = v := by
  unfold getBrightness
  rw [h, clampByte_intCast v h0 h255]

/-- White is on at threshold 128. -/
lemma isPixelOn_WHITE : isPixelOn WHITE 128 = true := by
  have hb : getBrightness WHITE = 255 := getBrightness_eval WHITE 255 (by norm_num [WHITE])
    (by norm_num) (by norm_num)
  unfold isPixelOn
  rw [show WHITE.a = some 255 from rfl]
  show (if (255 : Int) < ALPHA_THRESHOLD then false
    else decide (getBrightness WHITE ≥ 128)) = true
  rw [if_neg (by norm_num [ALPHA_THRESHOLD]), hb]
  decide

/-- Black is off at threshold 128. -/
lemma isPixelOn_BLACK : isPixelOn BLACK 128 = false := by
  have hb : getBrightness BLACK = 0 := getBrightness_eval BLACK 0 (by norm_num [BLACK])
    (by norm_num) (by norm_num)
  unfold isPixelOn
  rw [show BLACK.a = some 255 from rfl]
  show (if (255 : Int) < ALPHA_THRESHOLD then false
    else decide (getBrightness BLACK ≥ 128)) = false
  rw [if_neg (by norm_num [ALPHA_THRESHOLD]), hb]
  decide

/-- Averaging a single white pixel gives white. -/
lemma averageColors_WHITE1 : averageColors [WHITE] = WHITE := by
  unfold averageColors
  norm_num [WHITE, clampByte_255]

/-- Averaging three black pixels gives black. -/
lemma averageColors_BLACK3 : averageColors [BLACK, BLACK, BLACK] = BLACK := by
  unfold averageColors
  norm_num [BLACK, clampByte_zero, clampByte_255]

/-- The 2×2 scenario region: pattern bit 0 only, white foreground, black
background. -/
lemma mapRegion_demo :
    mapRegionToPattern [[WHITE, BLACK], [BLACK, BLACK]] 0 0 2 2 128 = ⟨1, WHITE, BLACK⟩ := by
  have hscan : regionScan [[WHITE, BLACK], [BLACK, BLACK]] 0 0 2 2 =
      [WHITE, BLACK, BLACK, BLACK] := by decide
  have hbits : [WHITE, BLACK, BLACK, BLACK].map (fun c => isPixelOn c 128) =
      [true, false, false, false] := by
    simp [isPixelOn_WHITE, isPixelOn_BLACK]
  have hfgList : ([WHITE, BLACK, BLACK, BLACK].filter fun c => isPixelOn c 128) = [WHITE] := by
    simp [List.filter, isPixelOn_WHITE, isPixelOn_BLACK]
  have hbgList : ([WHITE, BLACK, BLACK, BLACK].filter fun c => !(isPixelOn c 128)) =
      [BLACK, BLACK, BLACK] := by
    simp [List.filter, isPixelOn_WHITE, isPixelOn_BLACK]
  simp only [mapRegionToPattern]
  rw [hscan, hbits, hfgList, hbgList, averageColors_WHITE1, averageColors_BLACK3]
  decide

/-- The 2×2 scenario through mapPixelsToCells with the quadrant set. -/
lemma mapPixelsToCells_quadrant_demo :
    mapPixelsToCells [[WHITE, BLACK], [BLACK, BLACK]] SymbolSet.quadrant 128 =
      [[⟨"▘", WHITE, BLACK⟩]] := by
  show [[(⟨(findBestSymbol
      (mapRegionToPattern [[WHITE, BLACK], [BLACK, BLACK]] 0 0 2 2 128).pattern
      QUADRANT_SYMBOLS).char,
    (mapRegionToPattern [[WHITE, BLACK], [BLACK, BLACK]] 0 0 2 2 128).fg,
    (mapRegionToPattern [[WHITE, BLACK], [BLACK, BLACK]] 0 0 2 2 128).bg⟩ : Cell)]] =
    [[⟨"▘", WHITE, BLACK⟩]]
  rw [mapRegion_demo]
  decide

/-- C3 counterexample: over the buffer [[WHITE]], the region of extent
1×33 at origin (0, −32) scans its pixel of index 32 as on (it is the
buffer's white pixel), yet bit 32 of the returned pattern is not set —
the source's `bitPattern |= 1 << i` shifts on 32-bit integers, and
`1 << 32 === 1` — and conversely bit 0 of the pattern is set although the
pixel scanned at index 0 is off (out of range, hence opaque black).  This
refutes the claim's "bit i of the returned pattern iff the i-th scanned
pixel is on" for every extent, at w = 1, h = 33, i ∈ {0, 32}. -/
theorem mapRegionToPattern_claim_counterexample :
    (mapRegionToPattern [[WHITE]] 0 (-32) 1 33 128).pattern = 1 ∧
    isPixelOn (getPixelSafe [[WHITE]] (0 + ((32 % 1 : Nat) : Int))
      ((-32) + ((32 / 1 : Nat) : Int))) 128 = true ∧
    Nat.testBit 1 32 = false ∧
    isPixelOn (getPixelSafe [[WHITE]] (0 + ((0 % 1 : Nat) : Int))
      ((-32) + ((0 / 1 : Nat) : Int))) 128 = false ∧
    Nat.testBit 1 0 = true := by
  refine ⟨?_, ?_, by decide, ?_, by decide⟩
  · have hscan : regionScan [[WHITE]] 0 (-32) 1 33 =
        List.replicate 32 BLACK ++ [WHITE] := by decide
    have hbits : (List.replicate 32 BLACK ++ [WHITE]).map (fun c => isPixelOn c 128) =
        List.replicate 32 false ++ [true] := by
      simp [isPixelOn_WHITE, isPixelOn_BLACK]
    simp only [mapRegionToPattern]
    rw [hscan, hbits]
    decide
  · have hpix : getPixelSafe [[WHITE]] (0 + ((32 % 1 : Nat) : Int))
        ((-32) + ((32 / 1 : Nat) : Int)) = WHITE := by decide
    rw [hpix, isPixelOn_WHITE]
  · have hpix : getPixelSafe [[WHITE]] (0 + ((0 % 1 : Nat) : Int))
        ((-32) + ((0 / 1 : Nat) : Int)) = BLACK := by decide
    rw [hpix, isPixelOn_BLACK]

/-- C3 (amended): mapRegionToPattern scans the w×h sub-grid in row-major
order and ORs `1 << i` for each on pixel, where the JS shift acts on
32-bit integers by i mod 32 — so bit b of the returned pattern is set
exactly when some scanned index i with i ≡ b (mod 32) has its pixel on;
for regions of at most 32 pixels (every sub-grid used by the symbol sets
is at most 2×4) this is exactly "bit i iff the i-th scanned pixel — the
one at (startX + i mod w, startY + i div w) — is on" (bit 0 = first pixel
scanned).  The foreground is the average of the on-pixels and the
background the average of the off-pixels, in scan order; out-of-range
reads behave as opaque black; and the claim's 2×2 scenario produces a
single cell with pattern bit 0 that resolves to the glyph "▘". -/
theorem mapRegionToPattern_amended_spec :
    (∀ (pixels : PixelBuffer) (sX sY : Int) (w h : Nat) (th : Int) (b : Nat),
      (mapRegionToPattern pixels sX sY w h th).pattern.testBit b =
        ((List.range (h * w)).any fun i => decide (i % 32 = b) &&
          isPixelOn (getPixelSafe pixels (sX + ((i % w : Nat) : Int))
            (sY + ((i / w : Nat) : Int))) th)) ∧
    (∀ (pixels : PixelBuffer) (sX sY : Int) (w h : Nat) (th : Int),
      h * w ≤ 32 → ∀ i : Nat, i < h * w →
      ((mapRegionToPattern pixels sX sY w h th).pattern.testBit i =
        isPixelOn (getPixelSafe pixels (sX + ((i % w : Nat) : Int))
          (sY + ((i / w : Nat) : Int))) th)) ∧
    (∀ (pixels : PixelBuffer) (sX sY : Int) (w h : Nat) (th : Int),
      (mapRegionToPattern pixels sX sY w h th).fg =
        averageColors ((regionScan pixels sX sY w h).filter fun c => isPixelOn c th) ∧
      (mapRegionToPattern pixels sX sY w h th).bg =
        averageColors ((regionScan pixels sX sY w h).filter fun c => !(isPixelOn c th))) ∧
    (∀ (pixels : PixelBuffer) (x y : Int),
      ¬(0 ≤ y ∧ y.toNat < pixels.length ∧ 0 ≤ x ∧
          x.toNat < (pixels.getD y.toNat []).length) →
      getPixelSafe pixels x y = BLACK) ∧
    mapPixelsToCells [[WHITE, BLACK], [BLACK, BLACK]] SymbolSet.quadrant 128 =
      [[⟨"▘", WHITE, BLACK⟩]] := by
  have hgen : ∀ (pixels : PixelBuffer) (sX sY : Int) (w h : Nat) (th : Int) (b : Nat),
      (mapRegionToPattern pixels sX sY w h th).pattern.testBit b =
        ((List.range (h * w)).any fun i => decide (i % 32 = b) &&
          isPixelOn (getPixelSafe pixels (sX + ((i % w : Nat) : Int))
            (sY + ((i / w : Nat) : Int))) th) := by
    intro pixels sX sY w h th b
    unfold mapRegionToPattern
    simp only
    rw [testBit_patternFold32]
    rw [regionScan_eq_map, List.map_map]
    simp only [List.length_map, List.length_range]
    apply any_range_congr
    intro j hj
    rw [getD_map_range (h * w) j _ false hj]
    rfl
  refine ⟨hgen, ?_, ?_, ?_, ?_⟩
  · intro pixels sX sY w h th hle i hi
    rw [hgen pixels sX sY w h th i]
    exact any_range_mod32_small (h * w) hle _ i hi
  · intro pixels sX sY w h th
    exact ⟨rfl, rfl⟩
  · intro pixels x y hob
    unfold getPixelSafe
    by_cases hy : 0 ≤ y ∧ y.toNat < pixels.length
    · rw [if_pos hy]
      simp only
      rw [if_neg (by tauto)]
    · rw [if_neg hy]
  · exact mapPixelsToCells_quadrant_demo

/-- Witness for C3: the amended clauses instantiated on the 2×2 scenario
buffer (a 4-pixel region, so within the alias-free range), and the
out-of-range clause at a concrete out-of-bounds read. -/
theorem mapRegionToPattern_amended_spec_witness :
    (2 * 2 ≤ 32 ∧ 0 < 2 * 2 ∧
      ((mapRegionToPattern [[WHITE, BLACK], [BLACK, BLACK]] 0 0 2 2 128).pattern.testBit 0 =
        isPixelOn (getPixelSafe [[WHITE, BLACK], [BLACK, BLACK]]
          (0 + ((0 % 2 : Nat) : Int)) (0 + ((0 / 2 : Nat) : Int))) 128)) ∧
    (mapRegionToPattern [[WHITE, BLACK], [BLACK, BLACK]] 0 0 2 2 128).fg =
      averageColors ((regionScan [[WHITE, BLACK], [BLACK, BLACK]] 0 0 2 2).filter
        fun c => isPixelOn c 128) ∧
    ¬(0 ≤ (5 : Int) ∧ (5 : Int).toNat < ([[WHITE]] : PixelBuffer).length ∧ 0 ≤ (0 : Int) ∧
        (0 : Int).toNat < (([[WHITE]] : PixelBuffer).getD (5 : Int).toNat []).length) ∧
    getPixelSafe [[WHITE]] 0 5 = BLACK :=
  ⟨⟨by decide, by decide,
      mapRegionToPattern_amended_spec.2.1 [[WHITE, BLACK], [BLACK, BLACK]] 0 0 2 2 128
        (by decide) 0 (by decide)⟩,
   (mapRegionToPattern_amended_spec.2.2.1 [[WHITE, BLACK], [BLACK, BLACK]] 0 0 2 2 128).1,
   by decide,
   mapRegionToPattern_amended_spec.2.2.2.1 [[WHITE]] 0 5 (by decide)⟩

/-! ## C4: cell-grid dimensions -/

/-- C4: for a rectangular W×H buffer with positive dimensions,
mapPixelsToCells returns exactly ceil(H / subgridHeight) rows of
ceil(W / subgridWidth) cells each (partial trailing sub-grids are filled
through getPixelSafe, whose out-of-bounds reads are opaque black); a
buffer with zero rows, or with a zero-width first row, yields the empty
grid. -/
theorem mapPixelsToCells_dims (pixels : PixelBuffer) (name : SymbolSet) (th : Int) :
    (∀ W H : Nat, pixels.length = H → 0 < H →
      (pixels.headD []).length = W → 0 < W →
      (∀ row ∈ pixels, row.length = W) →
      (mapPixelsToCells pixels name th).length =
        (H + (getSymbolDimensions name).2 - 1) / (getSymbolDimensions name).2 ∧
      ∀ row ∈ mapPixelsToCells pixels name th,
        row.length = (W + (getSymbolDimensions name).1 - 1) / (getSymbolDimensions name).1) ∧
    (pixels = [] → mapPixelsToCells pixels name th = []) ∧
    ((pixels.headD []).length = 0 → mapPixelsToCells pixels name th = []) := by
  refine ⟨?_, ?_, ?_⟩
  · intro W H hH hHpos hW hWpos _hrect
    unfold mapPixelsToCells
    rw [if_neg (by omega), if_neg (by omega)]
    constructor
    · rw [List.length_map, List.length_range, hH]
    · intro row hrow
      obtain ⟨cy, _, hcy⟩ := List.mem_map.mp hrow
      rw [← hcy, List.length_map, List.length_range, hW]
  · intro hempty
    subst hempty
    rfl
  · intro hzero
    unfold mapPixelsToCells
    by_cases hlen : pixels.length = 0
    · rw [if_pos hlen]
    · rw [if_neg hlen, if_pos hzero]

/-- Witness for C4 on a 3×3 buffer with the half-block set (sub-grid 1×2):
2 rows of 3 cells. -/
theorem mapPixelsToCells_dims_witness :
    (([[BLACK, BLACK, BLACK], [BLACK, BLACK, BLACK], [BLACK, BLACK, BLACK]] :
        PixelBuffer).length = 3 ∧ 0 < 3 ∧
      (([[BLACK, BLACK, BLACK], [BLACK, BLACK, BLACK], [BLACK, BLACK, BLACK]] :
        PixelBuffer).headD []).length = 3 ∧
      (mapPixelsToCells [[BLACK, BLACK, BLACK], [BLACK, BLACK, BLACK], [BLACK, BLACK, BLACK]]
          SymbolSet.half 128).length =
        (3 + (getSymbolDimensions SymbolSet.half).2 - 1) / (getSymbolDimensions SymbolSet.half).2) ∧
    mapPixelsToCells ([] : PixelBuffer) SymbolSet.half 128 = [] :=
  ⟨⟨by decide, by decide, by decide,
    ((mapPixelsToCells_dims
        [[BLACK, BLACK, BLACK], [BLACK, BLACK, BLACK], [BLACK, BLACK, BLACK]]
        SymbolSet.half 128).1 3 3 rfl (by decide) rfl (by decide)
      (by decide)).1⟩,
   (mapPixelsToCells_dims [] SymbolSet.half 128).2.1 rfl⟩

/-! ## Pixel write lemmas (for the drawing claims) -/

/-- setPixel preserves the row structure's lengths. -/
lemma length_setPixel (b : PixelBuffer) (x y : Int) (c : Color) :
    (setPixel b x y c).length = b.length := by
  simp only [setPixel]
  split_ifs <;> simp

/-- A usable unfolding of the bounds test. -/
lemma inBounds_iff (b : PixelBuffer) (u v : Int) :
    inBounds b u v = true ↔
      (0 ≤ v ∧ v.toNat < b.length ∧ 0 ≤ u ∧ u.toNat < (b.getD v.toNat []).length) := by
  simp only [inBounds]
  simp [and_assoc]

/-- getPixel expressed through the bounds test and a raw double read. -/
lemma getPixel_eq (b : PixelBuffer) (u v : Int) :
    getPixel b u v =
      if inBounds b u v = true then some ((b.getD v.toNat []).getD u.toNat BLACK)
      else Option.none := by
  simp only [getPixel]
  by_cases h1 : 0 ≤ v ∧ v.toNat < b.length
  · rw [if_pos h1]
    by_cases h2 : 0 ≤ u ∧ u.toNat < (b.getD v.toNat []).length
    · rw [if_pos h2, if_pos ((inBounds_iff b u v).mpr ⟨h1.1, h1.2, h2.1, h2.2⟩)]
    · rw [if_neg h2, if_neg (fun hc => by
        obtain ⟨_, _, hc3, hc4⟩ := (inBounds_iff b u v).mp hc
        exact h2 ⟨hc3, hc4⟩)]
  · rw [if_neg h1, if_neg (fun hc => by
      obtain ⟨hc1, hc2, _, _⟩ := (inBounds_iff b u v).mp hc
      exact h1 ⟨hc1, hc2⟩)]

/-- setPixel preserves every row length. -/
lemma rowLength_setPixel (b : PixelBuffer) (x y : Int) (c : Color) (j : Nat) :
    ((setPixel b x y c).getD j []).length = (b.getD j []).length := by
  simp only [setPixel]
  split_ifs with h1 h2
  · by_cases hj : y.toNat = j
    · subst hj
      rw [List.getD_eq_getElem?_getD, List.getElem?_set_eq (by omega),
        Option.getD_some, List.length_set, List.getD_eq_getElem?_getD]
    · rw [List.getD_eq_getElem?_getD, List.getElem?_set_ne hj,
        ← List.getD_eq_getElem?_getD]
  · rfl
  · rfl

/-- setPixel does not change which positions are in bounds. -/
lemma inBounds_setPixel (b : PixelBuffer) (x y : Int) (c : Color) (u v : Int) :
    inBounds (setPixel b x y c) u v = inBounds b u v := by
  simp only [inBounds]
  rw [length_setPixel, rowLength_setPixel]

/-- The raw double read after setPixel: the written index pair (when the
write landed) reads the new color, everything else is unchanged. -/
lemma setPixel_read (b : PixelBuffer) (x y : Int) (c : Color) (j i : Nat) :
    ((setPixel b x y c).getD j []).getD i BLACK =
      if inBounds b x y = true ∧ j = y.toNat ∧ i = x.toNat then c
      else (b.getD j []).getD i BLACK := by
  by_cases hin : inBounds b x y = true
  · obtain ⟨hy0, hylt, hx0, hxlt⟩ := (inBounds_iff b x y).mp hin
    have hset : setPixel b x y c = b.set y.toNat ((b.getD y.toNat []).set x.toNat c) := by
      simp only [setPixel]
      rw [if_pos ⟨hy0, hylt⟩, if_pos ⟨hx0, hxlt⟩]
    rw [hset]
    by_cases hj : j = y.toNat
    · subst hj
      by_cases hi : i = x.toNat
      · subst hi
        rw [if_pos ⟨hin, rfl, rfl⟩]
        simp only [List.getD_eq_getElem?_getD]
        rw [List.getElem?_set_eq (by omega), Option.getD_some,
          List.getElem?_set_eq (by simpa [List.getD_eq_getElem?_getD] using hxlt),
          Option.getD_some]
      · rw [if_neg (fun hc => hi hc.2.2)]
        simp only [List.getD_eq_getElem?_getD]
        rw [List.getElem?_set_eq (by omega), Option.getD_some,
          List.getElem?_set_ne (fun hc => hi hc.symm)]
    · rw [if_neg (fun hc => hj hc.2.1)]
      simp only [List.getD_eq_getElem?_getD]
      rw [List.getElem?_set_ne (fun hc => hj hc.symm)]
  · have hset : setPixel b x y c = b := by
      simp only [setPixel]
      split_ifs with h1 h2
      · exact absurd ((inBounds_iff b x y).mpr ⟨h1.1, h1.2, h2.1, h2.2⟩) hin
      · rfl
      · rfl
    rw [hset, if_neg (fun hc => hin hc.1)]

/-- Reading after a bounds-checked write. -/
lemma getPixel_setPixel (b : PixelBuffer) (x y : Int) (c : Color) (u v : Int) :
    getPixel (setPixel b x y c) u v =
      if inBounds b x y = true ∧ u = x ∧ v = y then some c else getPixel b u v := by
  rw [getPixel_eq, inBounds_setPixel, setPixel_read, getPixel_eq b u v]
  by_cases huv : inBounds b u v = true
  · obtain ⟨hv0, hvlt, hu0, hult⟩ := (inBounds_iff b u v).mp huv
    rw [if_pos huv, if_pos huv]
    by_cases hin : inBounds b x y = true
    · obtain ⟨hy0, hylt, hx0, hxlt⟩ := (inBounds_iff b x y).mp hin
      by_cases heq : u = x ∧ v = y
      · obtain ⟨hu, hv⟩ := heq
        rw [if_pos ⟨hin, by omega, by omega⟩, if_pos ⟨hin, hu, hv⟩]
      · rw [if_neg (fun hc => heq ⟨by omega, by omega⟩), if_neg (fun hc => heq ⟨hc.2.1, hc.2.2⟩)]
    · rw [if_neg (fun hc => hin hc.1), if_neg (fun hc => hin hc.1)]
  · rw [if_neg huv, if_neg huv]
    rw [if_neg]
    rintro ⟨hin, hu, hv⟩
    subst hu hv
    exact huv hin

/-- In-bounds positions are unchanged by a horizontal run of setPixel. -/
lemma inBounds_runX (y : Int) (c : Color) (start : Int) :
    ∀ (n : Nat) (b : PixelBuffer) (u v : Int),
      inBounds ((List.range n).foldl
        (fun buf (dx : Nat) => setPixel buf (start + (dx : Int)) y c) b) u v =
      inBounds b u v := by
  intro n
  induction n with
  | zero =>
    intro b u v
    rfl
  | succ n ih =>
    intro b u v
    rw [List.range_succ, List.foldl_append, List.foldl_cons, List.foldl_nil,
      inBounds_setPixel, ih]

/-- In-bounds positions are unchanged by a vertical run of setPixel. -/
lemma inBounds_runY (x : Int) (c : Color) (start : Int) :
    ∀ (n : Nat) (b : PixelBuffer) (u v : Int),
      inBounds ((List.range n).foldl
        (fun buf (dy : Nat) => setPixel buf x (start + (dy : Int)) c) b) u v =
      inBounds b u v := by
  intro n
  induction n with
  | zero =>
    intro b u v
    rfl
  | succ n ih =>
    intro b u v
    rw [List.range_succ, List.foldl_append, List.foldl_cons, List.foldl_nil,
      inBounds_setPixel, ih]

/-- Reading after a horizontal run of n setPixel writes starting at
`start`: positions on row y in [start, start+n) that are in bounds read
the color, all others are unchanged. -/
lemma getPixel_runX (y : Int) (c : Color) (start : Int) :
    ∀ (n : Nat) (b : PixelBuffer) (u v : Int),
      getPixel ((List.range n).foldl
        (fun buf (dx : Nat) => setPixel buf (start + (dx : Int)) y c) b) u v =
      if v = y ∧ start ≤ u ∧ u < start + (n : Int) ∧ inBounds b u v = true then some c
      else getPixel b u v := by
  intro n
  induction n with
  | zero =>
    intro b u v
    simp only [List.range_zero, List.foldl_nil, Nat.cast_zero]
    rw [if_neg (by rintro ⟨h1, h2, h3, h4⟩; omega)]
  | succ n ih =>
    intro b u v
    rw [List.range_succ, List.foldl_append, List.foldl_cons, List.foldl_nil,
      getPixel_setPixel, inBounds_runX, ih b u v]
    by_cases h1 : u = start + (n : Int) ∧ v = y
    · obtain ⟨hu, hv⟩ := h1
      subst hu hv
      by_cases hb : inBounds b (start + (n : Int)) v = true
      · rw [if_pos ⟨hb, rfl, rfl⟩, if_pos ⟨rfl, by omega, by push_cast; omega, hb⟩]
      · rw [if_neg (fun hc => hb hc.1), if_neg (fun hc => hb hc.2.2.2),
          if_neg (fun hc => hb hc.2.2.2)]
    · rw [if_neg (fun hc => h1 ⟨hc.2.1, hc.2.2⟩)]
      have hiff : (v = y ∧ start ≤ u ∧ u < start + ((n + 1 : Nat) : Int) ∧
            inBounds b u v = true) ↔
          (v = y ∧ start ≤ u ∧ u < start + (n : Int) ∧ inBounds b u v = true) := by
        constructor
        · rintro ⟨ha, hb', hc', hd⟩
          have hne : u ≠ start + (n : Int) := fun he => h1 ⟨he, ha⟩
          exact ⟨ha, hb', by omega, hd⟩
        · rintro ⟨ha, hb', hc', hd⟩
          exact ⟨ha, hb', by omega, hd⟩
      rw [if_congr hiff rfl rfl]

/-- Reading after a vertical run of n setPixel writes starting at `start`. -/
lemma getPixel_runY (x : Int) (c : Color) (start : Int) :
    ∀ (n : Nat) (b : PixelBuffer) (u v : Int),
      getPixel ((List.range n).foldl
        (fun buf (dy : Nat) => setPixel buf x (start + (dy : Int)) c) b) u v =
      if u = x ∧ start ≤ v ∧ v < start + (n : Int) ∧ inBounds b u v = true then some c
      else getPixel b u v := by
  intro n
  induction n with
  | zero =>
    intro b u v
    simp only [List.range_zero, List.foldl_nil, Nat.cast_zero]
    rw [if_neg (by rintro ⟨h1, h2, h3, h4⟩; omega)]
  | succ n ih =>
    intro b u v
    rw [List.range_succ, List.foldl_append, List.foldl_cons, List.foldl_nil,
      getPixel_setPixel, inBounds_runY, ih b u v]
    by_cases h1 : u = x ∧ v = start + (n : Int)
    · obtain ⟨hu, hv⟩ := h1
      subst hu hv
      by_cases hb : inBounds b u (start + (n : Int)) = true
      · rw [if_pos ⟨hb, rfl, rfl⟩, if_pos ⟨rfl, by omega, by push_cast; omega, hb⟩]
      · rw [if_neg (fun hc => hb hc.1), if_neg (fun hc => hb hc.2.2.2),
          if_neg (fun hc => hb hc.2.2.2)]
    · rw [if_neg (fun hc => h1 ⟨hc.2.1, hc.2.2⟩)]
      have hiff : (u = x ∧ start ≤ v ∧ v < start + ((n + 1 : Nat) : Int) ∧
            inBounds b u v = true) ↔
          (u = x ∧ start ≤ v ∧ v < start + (n : Int) ∧ inBounds b u v = true) := by
        constructor
        · rintro ⟨ha, hb', hc', hd⟩
          have hne : v ≠ start + (n : Int) := fun he => h1 ⟨ha, he⟩
          exact ⟨ha, hb', by omega, hd⟩
        · rintro ⟨ha, hb', hc', hd⟩
          exact ⟨ha, hb', by omega, hd⟩
      rw [if_congr hiff rfl rfl]

/-! ## C6: perpendicular thickness -/

/-- C6: drawThickPixelPerpendicular paints a run of `thickness` pixels
perpendicular to the line's dominant axis — along x when the line was
classified steep (|dy| > |dx|, decided once per drawLine call), along y
otherwise — starting floor(thickness/2) before the primary pixel;
everything else is untouched.  The claim's 4×4 scenario: a thickness-2
line from (0,1) to (3,1) paints exactly rows 0 and 1. -/
theorem drawThickPixelPerpendicular_spec :
    (∀ (b : PixelBuffer) (x y : Int) (c : Color) (thickness : Int) (isSteep : Bool)
        (u v : Int),
      getPixel (drawThickPixelPerpendicular b x y c thickness isSteep) u v =
        if isSteep = true then
          (if v = y ∧ x - thickness.fdiv 2 ≤ u ∧
              u < x - thickness.fdiv 2 + (thickness.toNat : Int) ∧ inBounds b u v = true
            then some c else getPixel b u v)
        else
          (if u = x ∧ y - thickness.fdiv 2 ≤ v ∧
              v < y - thickness.fdiv 2 + (thickness.toNat : Int) ∧ inBounds b u v = true
            then some c else getPixel b u v)) ∧
    drawLine (List.replicate 4 (List.replicate 4 BLACK)) 0 1 3 1 WHITE
        (some { pattern := Option.none, thickness := some 2 }) =
      [[WHITE, WHITE, WHITE, WHITE], [WHITE, WHITE, WHITE, WHITE],
       [BLACK, BLACK, BLACK, BLACK], [BLACK, BLACK, BLACK, BLACK]] := by
  constructor
  · intro b x y c thickness isSteep u v
    cases isSteep
    · simp only [drawThickPixelPerpendicular, Bool.false_eq_true, if_false]
      exact getPixel_runY x c (y - thickness.fdiv 2) thickness.toNat b u v
    · simp only [drawThickPixelPerpendicular, if_true]
      exact getPixel_runX y c (x - thickness.fdiv 2) thickness.toNat b u v
  · decide

/-! ## C5: dash patterns along a line -/

/-- One horizontal Bresenham iteration draws through the thickness-1 path;
characterization of the loop over the remaining steps t, t+1, …, dx of a
left-to-right horizontal line: it breaks at the endpoint with step counter
dx, having painted exactly the in-bounds pixels of row y1 whose step index
u - x1 passes the dash pattern. -/
lemma bresLoop_horizontal (p : BresParams) (x1 y1 : Int) (pat : List Int)
    (hdy : p.dy = 0) (hsx : p.sx = 1) (hx2 : p.x2 = x1 + (p.dx : Int)) (hy2 : p.y2 = y1)
    (hstyle : p.style = some { pattern := some pat, thickness := Option.none }) :
    ∀ (n t : Nat) (b : PixelBuffer), t + n = p.dx →
      ∃ bf, bresLoop p (n + 1) b (x1 + (t : Int)) y1 ((p.dx : Int)) t =
          some (bf, p.x2, p.y2, p.dx) ∧
        ∀ u v : Int, getPixel bf u v =
          if v = y1 ∧ x1 + (t : Int) ≤ u ∧ u ≤ x1 + (p.dx : Int) ∧
              (pat.getD ((u - x1).toNat % pat.length) 0 == 1) = true ∧
              inBounds b u v = true
            then some p.color else getPixel b u v := by
  have hsd : ∀ s : Nat, shouldDrawAt p.style s = (pat.getD (s % pat.length) 0 == 1) := by
    intro s
    simp [shouldDrawAt, hstyle]
  have hth : (p.style.bind (fun s => s.thickness)).getD 1 = 1 := by simp [hstyle]
  intro n
  induction n with
  | zero =>
    intro t b ht
    have htdx : t = p.dx := by omega
    refine ⟨if (pat.getD (t % pat.length) 0 == 1) = true
        then setPixel b (x1 + (t : Int)) y1 p.color else b, ?_, ?_⟩
    · rw [bresLoop]
      simp only [hsd, hth]
      rw [if_neg (by omega : ¬ (1 : Int) > 1)]
      rw [if_pos (show x1 + (t : Int) = p.x2 ∧ y1 = p.y2 from
        ⟨by rw [hx2, htdx], hy2.symm⟩)]
      rw [hx2, hy2, ← htdx]
    · intro u v
      by_cases hp : (pat.getD (t % pat.length) 0 == 1) = true
      · rw [if_pos hp, getPixel_setPixel]
        by_cases h1 : u = x1 + (t : Int) ∧ v = y1
        · obtain ⟨hu, hv⟩ := h1
          subst hu hv
          have hpat : ((x1 + (t : Int)) - x1).toNat = t := by omega
          by_cases hb : inBounds b (x1 + (t : Int)) v = true
          · rw [if_pos ⟨hb, rfl, rfl⟩,
              if_pos ⟨rfl, le_refl _, by omega, by rw [hpat]; exact hp, hb⟩]
          · rw [if_neg (fun hc => hb hc.1), if_neg (fun hc => hb hc.2.2.2.2)]
        · rw [if_neg (fun hc => h1 ⟨hc.2.1, hc.2.2⟩), if_neg ?_]
          rintro ⟨ha, hb', hc', -, -⟩
          exact h1 ⟨by omega, ha⟩
      · rw [if_neg hp, if_neg ?_]
        rintro ⟨ha, hb', hc', hd, -⟩
        have hu : u = x1 + (t : Int) := by omega
        subst hu
        rw [show ((x1 + (t : Int)) - x1).toNat = t by omega] at hd
        exact hp hd
  | succ n ih =>
    intro t b ht
    have hdxpos : 1 ≤ p.dx := by omega
    have htlt : t < p.dx := by omega
    set b1 : PixelBuffer := if (pat.getD (t % pat.length) 0 == 1) = true
      then setPixel b (x1 + (t : Int)) y1 p.color else b with hb1def
    have hinb1 : ∀ u v : Int, inBounds b1 u v = inBounds b u v := by
      intro u v
      rw [hb1def]
      split_ifs
      · rw [inBounds_setPixel]
      · rfl
    have hgp1 : ∀ u v : Int, getPixel b1 u v =
        if (pat.getD (t % pat.length) 0 == 1) = true ∧
            inBounds b (x1 + (t : Int)) y1 = true ∧ u = x1 + (t : Int) ∧ v = y1
          then some p.color else getPixel b u v := by
      intro u v
      rw [hb1def]
      by_cases hp : (pat.getD (t % pat.length) 0 == 1) = true
      · rw [if_pos hp, getPixel_setPixel]
        by_cases hc : inBounds b (x1 + (t : Int)) y1 = true ∧ u = x1 + (t : Int) ∧ v = y1
        · rw [if_pos hc, if_pos ⟨hp, hc⟩]
        · rw [if_neg hc, if_neg (fun hk => hc hk.2)]
      · rw [if_neg hp, if_neg (fun hk => hp hk.1)]
    obtain ⟨bf, hloop, hchar⟩ := ih (t + 1) b1 (by omega)
    refine ⟨bf, ?_, ?_⟩
    · have hbreakne : ¬(x1 + (t : Int) = p.x2 ∧ y1 = p.y2) := by
        rw [hx2]
        rintro ⟨hxx, -⟩
        omega
      have hxcond : 2 * ((p.dx : Int)) > -((p.dy : Int)) := by
        rw [hdy]
        push_cast
        omega
      have hycond : ¬ 2 * ((p.dx : Int)) < ((p.dx : Int)) := by
        push_cast
        omega
      rw [bresLoop]
      simp only [hsd, hth]
      rw [if_neg (by omega : ¬ (1 : Int) > 1)]
      rw [if_neg hbreakne, if_pos hxcond, if_pos hxcond, if_neg hycond, if_neg hycond]
      rw [← hb1def, hsx, hdy]
      have hcast : x1 + (t : Int) + 1 = x1 + ((t + 1 : Nat) : Int) := by push_cast; ring
      have hcast2 : ((p.dx : Int)) - ((0 : Nat) : Int) = ((p.dx : Int)) := by
        push_cast
        ring
      rw [hcast, hcast2]
      exact hloop
    · intro u v
      rw [hchar u v, hgp1 u v]
      by_cases huv : u = x1 + (t : Int) ∧ v = y1
      · obtain ⟨hu, hv⟩ := huv
        subst hu hv
        rw [if_neg (by rintro ⟨-, hb', -⟩; push_cast at hb'; omega)]
        by_cases hp : (pat.getD (t % pat.length) 0 == 1) = true
        · by_cases hb : inBounds b (x1 + (t : Int)) v = true
          · rw [if_pos ⟨hp, hb, rfl, rfl⟩,
              if_pos ⟨rfl, le_refl _, by push_cast; omega,
                by rw [show ((x1 + (t : Int)) - x1).toNat = t by omega]; exact hp, hb⟩]
          · rw [if_neg (fun hk => hb hk.2.1), if_neg (fun hk => hb hk.2.2.2.2)]
        · rw [if_neg (fun hk => hp hk.1), if_neg (fun hk => hp (by
            rw [show ((x1 + (t : Int)) - x1).toNat = t by omega] at hk
            exact hk.2.2.2.1))]
      · have hiff : (v = y1 ∧ x1 + ((t + 1 : Nat) : Int) ≤ u ∧ u ≤ x1 + (p.dx : Int) ∧
              (pat.getD ((u - x1).toNat % pat.length) 0 == 1) = true ∧
              inBounds b1 u v = true) ↔
            (v = y1 ∧ x1 + (t : Int) ≤ u ∧ u ≤ x1 + (p.dx : Int) ∧
              (pat.getD ((u - x1).toNat % pat.length) 0 == 1) = true ∧
              inBounds b u v = true) := by
          constructor
          · rintro ⟨ha, hb', hc', hd, he⟩
            rw [hinb1] at he
            exact ⟨ha, by push_cast at hb' ⊢; omega, hc', hd, he⟩
          · rintro ⟨ha, hb', hc', hd, he⟩
            have hne : u ≠ x1 + (t : Int) := fun hk => huv ⟨hk, ha⟩
            rw [← hinb1] at he
            exact ⟨ha, by push_cast; omega, hc', hd, he⟩
        rw [if_congr hiff rfl rfl]
        by_cases hcond : v = y1 ∧ x1 + (t : Int) ≤ u ∧ u ≤ x1 + (p.dx : Int) ∧
            (pat.getD ((u - x1).toNat % pat.length) 0 == 1) = true ∧
            inBounds b u v = true
        · rw [if_pos hcond, if_pos hcond]
        · rw [if_neg hcond, if_neg hcond,
            if_neg (fun hk => huv ⟨hk.2.2.1, hk.2.2.2⟩)]

/-- C5: with a dash pattern, the pixel at Bresenham step s is drawn
exactly when pattern[s mod pattern.length] is 1 (first conjunct: the
loop's per-step test; second conjunct: over a whole left-to-right
horizontal drawLine call, where the step index of the pixel at column u
is u - x1); the claim's scenario: a 20-pixel horizontal span with pattern
[1,0,0] paints exactly every third step starting at step 0. -/
theorem drawLine_dash_spec :
    (∀ (pat : List Int) (thickness : Option Int) (s : Nat),
      shouldDrawAt (some { pattern := some pat, thickness := thickness }) s =
        (pat.getD (s % pat.length) 0 == 1)) ∧
    (∀ (b : PixelBuffer) (x1 y1 x2 : Int) (pat : List Int) (c : Color) (u v : Int),
      x1 < x2 →
      getPixel (drawLine b x1 y1 x2 y1 c
          (some { pattern := some pat, thickness := Option.none })) u v =
        if v = y1 ∧ x1 ≤ u ∧ u ≤ x2 ∧
            (pat.getD ((u - x1).toNat % pat.length) 0 == 1) = true ∧
            inBounds b u v = true
          then some c else getPixel b u v) ∧
    drawLine [List.replicate 20 BLACK] 0 0 19 0 WHITE
        (some { pattern := some [1, 0, 0], thickness := Option.none }) =
      [(List.range 20).map fun x => if x % 3 = 0 then WHITE else BLACK] := by
  refine ⟨?_, ?_, ?_⟩
  · intro pat thickness s
    simp [shouldDrawAt]
  · intro b x1 y1 x2 pat c u v hx
    set p := drawLineParams x1 y1 x2 y1 c
      (some { pattern := some pat, thickness := Option.none }) with hp
    have hdy : p.dy = 0 := by rw [hp]; simp [drawLineParams]
    have hsx : p.sx = 1 := by rw [hp]; simp [drawLineParams, hx]
    have hx2' : p.x2 = x1 + (p.dx : Int) := by
      rw [hp]
      simp only [drawLineParams]
      omega
    have hy2' : p.y2 = y1 := by rw [hp]; simp [drawLineParams]
    have hstyle : p.style = some { pattern := some pat, thickness := Option.none } := by
      rw [hp]; simp [drawLineParams]
    obtain ⟨bf, hloop, hchar⟩ :=
      bresLoop_horizontal p x1 y1 pat hdy hsx hx2' hy2' hstyle p.dx 0 b (by omega)
    have hloop' : bresLoop p (p.dx + 1) b x1 y1 ((p.dx : Int)) 0 =
        some (bf, p.x2, p.y2, p.dx) := by
      simpa using hloop
    have hfuel : max p.dx p.dy + 1 = p.dx + 1 := by rw [hdy]; simp
    have herr : ((p.dx : Int)) - ((p.dy : Int)) = (p.dx : Int) := by
      rw [hdy]
      push_cast
      ring
    have hdl : drawLine b x1 y1 x2 y1 c
        (some { pattern := some pat, thickness := Option.none }) = bf := by
      simp only [drawLine]
      rw [← hp, hfuel, herr, hloop']
    rw [hdl, hchar u v]
    have hiff : (v = y1 ∧ x1 + ((0 : Nat) : Int) ≤ u ∧ u ≤ x1 + (p.dx : Int) ∧
          (pat.getD ((u - x1).toNat % pat.length) 0 == 1) = true ∧
          inBounds b u v = true) ↔
        (v = y1 ∧ x1 ≤ u ∧ u ≤ x2 ∧
          (pat.getD ((u - x1).toNat % pat.length) 0 == 1) = true ∧
          inBounds b u v = true) := by
      rw [← hx2']
      constructor
      · rintro ⟨ha, hb', hc', hd, he⟩
        exact ⟨ha, by push_cast at hb'; omega, hc', hd, he⟩
      · rintro ⟨ha, hb', hc', hd, he⟩
        exact ⟨ha, by push_cast; omega, hc', hd, he⟩
    rw [if_congr hiff rfl rfl, show p.color = c from by rw [hp]; simp [drawLineParams]]
  · decide

/-- Witness for C5's horizontal characterization at a concrete call. -/
theorem drawLine_dash_spec_witness :
    (0 : Int) < 19 ∧
    getPixel (drawLine [List.replicate 20 BLACK] 0 0 19 0 WHITE
        (some { pattern := some [1, 0, 0], thickness := Option.none })) 3 0 =
      (if (0 : Int) = 0 ∧ (0 : Int) ≤ 3 ∧ (3 : Int) ≤ 19 ∧
          (([1, 0, 0] : List Int).getD
            (((3 : Int) - 0).toNat % ([1, 0, 0] : List Int).length) 0 == 1) = true ∧
          inBounds [List.replicate 20 BLACK] 3 0 = true
        then some WHITE else getPixel [List.replicate 20 BLACK] 3 0) :=
  ⟨by decide,
   drawLine_dash_spec.2.1 [List.replicate 20 BLACK] 0 0 19 [1, 0, 0] WHITE 3 0 (by decide)⟩

/-! ## C10: Bresenham termination -/

/-- Diagonal case dy = dx: both axes step every iteration, the error term
stays 0, and the loop breaks at iteration dx with the endpoint reached;
with one unit less fuel it does not complete. -/
lemma bresLoop_diag (p : BresParams) (x1 y1 : Int)
    (hdd : p.dy = p.dx) (hsx : p.sx = 1 ∨ p.sx = -1) (hsy : p.sy = 1 ∨ p.sy = -1)
    (hx2 : p.x2 = x1 + p.sx * (p.dx : Int)) (hy2 : p.y2 = y1 + p.sy * (p.dx : Int)) :
    ∀ (n t : Nat) (b : PixelBuffer), t + n = p.dx →
      ((bresLoop p (n + 1) b (x1 + p.sx * (t : Int)) (y1 + p.sy * (t : Int)) 0 t).map
        bresOut = some (p.x2, p.y2, p.dx)) ∧
      bresLoop p n b (x1 + p.sx * (t : Int)) (y1 + p.sy * (t : Int)) 0 t = Option.none := by
  intro n
  induction n with
  | zero =>
    intro t b ht
    have htdx : t = p.dx := by omega
    refine ⟨?_, rfl⟩
    rw [bresLoop]
    rw [if_pos (show x1 + p.sx * (t : Int) = p.x2 ∧ y1 + p.sy * (t : Int) = p.y2 from
      ⟨by rw [hx2, htdx], by rw [hy2, htdx]⟩)]
    simp only [Option.map_some', bresOut]
    rw [hx2, hy2, ← htdx]
  | succ n ih =>
    intro t b ht
    have hdxpos : 1 ≤ p.dx := by omega
    have htlt : t < p.dx := by omega
    have hbreakne : ¬(x1 + p.sx * (t : Int) = p.x2 ∧ y1 + p.sy * (t : Int) = p.y2) := by
      rw [hx2]
      rintro ⟨hxx, -⟩
      rcases hsx with h | h <;> rw [h] at hxx <;> omega
    have hxcond : 2 * (0 : Int) > -((p.dy : Int)) := by
      rw [hdd]
      push_cast
      omega
    have hycond : 2 * (0 : Int) < ((p.dx : Int)) := by
      push_cast
      omega
    have hxstep : x1 + p.sx * (t : Int) + p.sx = x1 + p.sx * ((t + 1 : Nat) : Int) := by
      push_cast
      ring
    have hystep : y1 + p.sy * (t : Int) + p.sy = y1 + p.sy * ((t + 1 : Nat) : Int) := by
      push_cast
      ring
    have herr : (0 : Int) - (p.dy : Int) + (p.dx : Int) = 0 := by
      rw [hdd]
      ring
    constructor
    · rw [bresLoop]
      rw [if_neg hbreakne]
      simp only []
      rw [if_pos hxcond, if_pos hxcond, if_pos hycond, if_pos hycond,
        hxstep, hystep, herr]
      exact (ih (t + 1) _ (by omega)).1
    · rw [bresLoop]
      rw [if_neg hbreakne]
      simp only []
      rw [if_pos hxcond, if_pos hxcond, if_pos hycond, if_pos hycond,
        hxstep, hystep, herr]
      exact (ih (t + 1) _ (by omega)).2

/-- Major-x case dy < dx: the x axis steps every iteration while y
follows the error term, whose doubled value stays within
[dx - 2dy, 3dx - 2dy - 1]; the loop breaks at iteration dx exactly at the
endpoint, and one unit less fuel does not complete.  The error relation
err = dx - dy - dy·t + dx·m ties the iteration count t to the number m of
y steps taken. -/
lemma bresLoop_major (p : BresParams) (x1 y1 : Int)
    (hlt : p.dy < p.dx) (hsx : p.sx = 1 ∨ p.sx = -1) (hsy : p.sy = 1 ∨ p.sy = -1)
    (hx2 : p.x2 = x1 + p.sx * (p.dx : Int)) (hy2 : p.y2 = y1 + p.sy * (p.dy : Int)) :
    ∀ (n t m : Nat) (b : PixelBuffer) (err : Int), t + n = p.dx →
      err = (p.dx : Int) - (p.dy : Int) - (p.dy : Int) * t + (p.dx : Int) * m →
      (p.dx : Int) - 2 * (p.dy : Int) ≤ 2 * err →
      2 * err ≤ 3 * (p.dx : Int) - 2 * (p.dy : Int) - 1 →
      ((bresLoop p (n + 1) b (x1 + p.sx * (t : Int)) (y1 + p.sy * (m : Int)) err t).map
        bresOut = some (p.x2, p.y2, p.dx)) ∧
      bresLoop p n b (x1 + p.sx * (t : Int)) (y1 + p.sy * (m : Int)) err t =
        Option.none := by
  intro n
  induction n with
  | zero =>
    intro t m b err ht hrel hlow hhigh
    have htdx : t = p.dx := by omega
    subst htdx
    have hA : (1 : Int) ≤ (p.dx : Int) := by push_cast; omega
    have key1 : -((p.dx : Int)) ≤ 2 * (p.dx : Int) * ((m : Int) - (p.dy : Int)) := by
      nlinarith [hrel, hlow]
    have key2 : 2 * (p.dx : Int) * ((m : Int) - (p.dy : Int)) ≤ (p.dx : Int) - 1 := by
      nlinarith [hrel, hhigh]
    have hmdy : (m : Int) = (p.dy : Int) := by
      rcases lt_trichotomy ((m : Int)) ((p.dy : Int)) with h | h | h
      · exfalso
        have h1 : (m : Int) - (p.dy : Int) ≤ -1 := by omega
        have h2 : 2 * (p.dx : Int) * ((m : Int) - (p.dy : Int)) ≤
            2 * (p.dx : Int) * (-1) :=
          mul_le_mul_of_nonneg_left h1 (by positivity)
        linarith [key1, h2, hA]
      · exact h
      · exfalso
        have h1 : (1 : Int) ≤ (m : Int) - (p.dy : Int) := by omega
        have h2 : 2 * (p.dx : Int) * 1 ≤
            2 * (p.dx : Int) * ((m : Int) - (p.dy : Int)) :=
          mul_le_mul_of_nonneg_left h1 (by positivity)
        linarith [key2, h2, hA]
    refine ⟨?_, rfl⟩
    rw [bresLoop]
    rw [if_pos (show x1 + p.sx * ((p.dx : Nat) : Int) = p.x2 ∧
        y1 + p.sy * (m : Int) = p.y2 from ⟨by rw [hx2], by rw [hy2, hmdy]⟩)]
    simp only [Option.map_some', bresOut]
    rw [hmdy, hx2, hy2]
  | succ n ih =>
    intro t m b err ht hrel hlow hhigh
    have hdxpos : 1 ≤ p.dx := by omega
    have htlt : t < p.dx := by omega
    have hbreakne : ¬(x1 + p.sx * (t : Int) = p.x2 ∧ y1 + p.sy * (m : Int) = p.y2) := by
      rw [hx2]
      rintro ⟨hxx, -⟩
      rcases hsx with h | h <;> rw [h] at hxx <;> omega
    have hxcond : 2 * err > -((p.dy : Int)) := by omega
    have hxstep : x1 + p.sx * (t : Int) + p.sx = x1 + p.sx * ((t + 1 : Nat) : Int) := by
      push_cast
      ring
    have hystep : y1 + p.sy * (m : Int) + p.sy = y1 + p.sy * ((m + 1 : Nat) : Int) := by
      push_cast
      ring
    constructor
    · rw [bresLoop, if_neg hbreakne]
      simp only []
      rw [if_pos hxcond, if_pos hxcond]
      by_cases hyc : 2 * err < (p.dx : Int)
      · rw [if_pos hyc, if_pos hyc, hxstep, hystep]
        exact (ih (t + 1) (m + 1) _ (err - (p.dy : Int) + (p.dx : Int)) (by omega)
          (by rw [hrel]; push_cast; ring) (by omega) (by omega)).1
      · rw [if_neg hyc, if_neg hyc, hxstep]
        exact (ih (t + 1) m _ (err - (p.dy : Int)) (by omega)
          (by rw [hrel]; push_cast; ring) (by omega) (by omega)).1
    · rw [bresLoop, if_neg hbreakne]
      simp only []
      rw [if_pos hxcond, if_pos hxcond]
      by_cases hyc : 2 * err < (p.dx : Int)
      · rw [if_pos hyc, if_pos hyc, hxstep, hystep]
        exact (ih (t + 1) (m + 1) _ (err - (p.dy : Int) + (p.dx : Int)) (by omega)
          (by rw [hrel]; push_cast; ring) (by omega) (by omega)).2
      · rw [if_neg hyc, if_neg hyc, hxstep]
        exact (ih (t + 1) m _ (err - (p.dy : Int)) (by omega)
          (by rw [hrel]; push_cast; ring) (by omega) (by omega)).2

/-- Major-y case dx < dy: mirror of the previous lemma; y steps every
iteration while x follows the error term, whose doubled value stays within
[2dx - 3dy + 1, 2dx - dy]; the iteration counter t now counts y steps and
k counts x steps. -/
lemma bresLoop_minor (p : BresParams) (x1 y1 : Int)
    (hlt : p.dx < p.dy) (hsx : p.sx = 1 ∨ p.sx = -1) (hsy : p.sy = 1 ∨ p.sy = -1)
    (hx2 : p.x2 = x1 + p.sx * (p.dx : Int)) (hy2 : p.y2 = y1 + p.sy * (p.dy : Int)) :
    ∀ (n t k : Nat) (b : PixelBuffer) (err : Int), t + n = p.dy →
      err = (p.dx : Int) - (p.dy : Int) - (p.dy : Int) * k + (p.dx : Int) * t →
      2 * (p.dx : Int) - 3 * (p.dy : Int) + 1 ≤ 2 * err →
      2 * err ≤ 2 * (p.dx : Int) - (p.dy : Int) →
      ((bresLoop p (n + 1) b (x1 + p.sx * (k : Int)) (y1 + p.sy * (t : Int)) err t).map
        bresOut = some (p.x2, p.y2, p.dy)) ∧
      bresLoop p n b (x1 + p.sx * (k : Int)) (y1 + p.sy * (t : Int)) err t =
        Option.none := by
  intro n
  induction n with
  | zero =>
    intro t k b err ht hrel hlow hhigh
    have htdy : t = p.dy := by omega
    subst htdy
    have hB : (1 : Int) ≤ (p.dy : Int) := by push_cast; omega
    have key1 : (1 : Int) - (p.dy : Int) ≤
        2 * (p.dy : Int) * ((p.dx : Int) - (k : Int)) := by
      nlinarith [hrel, hlow]
    have key2 : 2 * (p.dy : Int) * ((p.dx : Int) - (k : Int)) ≤ (p.dy : Int) := by
      nlinarith [hrel, hhigh]
    have hkdx : (k : Int) = (p.dx : Int) := by
      rcases lt_trichotomy ((k : Int)) ((p.dx : Int)) with h | h | h
      · exfalso
        have h1 : (1 : Int) ≤ (p.dx : Int) - (k : Int) := by omega
        have h2 : 2 * (p.dy : Int) * 1 ≤
            2 * (p.dy : Int) * ((p.dx : Int) - (k : Int)) :=
          mul_le_mul_of_nonneg_left h1 (by positivity)
        linarith [key2, h2, hB]
      · exact h
      · exfalso
        have h1 : (p.dx : Int) - (k : Int) ≤ -1 := by omega
        have h2 : 2 * (p.dy : Int) * ((p.dx : Int) - (k : Int)) ≤
            2 * (p.dy : Int) * (-1) :=
          mul_le_mul_of_nonneg_left h1 (by positivity)
        linarith [key1, h2, hB]
    refine ⟨?_, rfl⟩
    rw [bresLoop]
    rw [if_pos (show x1 + p.sx * (k : Int) = p.x2 ∧
        y1 + p.sy * ((p.dy : Nat) : Int) = p.y2 from ⟨by rw [hx2, hkdx], by rw [hy2]⟩)]
    simp only [Option.map_some', bresOut]
    rw [hkdx, hx2, hy2]
  | succ n ih =>
    intro t k b err ht hrel hlow hhigh
    have hdypos : 1 ≤ p.dy := by omega
    have htlt : t < p.dy := by omega
    have hbreakne : ¬(x1 + p.sx * (k : Int) = p.x2 ∧ y1 + p.sy * (t : Int) = p.y2) := by
      rw [hy2]
      rintro ⟨-, hyy⟩
      rcases hsy with h | h <;> rw [h] at hyy <;> omega
    have hycond : 2 * err < ((p.dx : Int)) := by omega
    have hystep : y1 + p.sy * (t : Int) + p.sy = y1 + p.sy * ((t + 1 : Nat) : Int) := by
      push_cast
      ring
    have hxstep : x1 + p.sx * (k : Int) + p.sx = x1 + p.sx * ((k + 1 : Nat) : Int) := by
      push_cast
      ring
    constructor
    · rw [bresLoop, if_neg hbreakne]
      simp only []
      by_cases hxc : 2 * err > -((p.dy : Int))
      · rw [if_pos hxc, if_pos hxc, if_pos hycond, if_pos hycond, hxstep, hystep]
        exact (ih (t + 1) (k + 1) _ (err - (p.dy : Int) + (p.dx : Int)) (by omega)
          (by rw [hrel]; push_cast; ring) (by omega) (by omega)).1
      · rw [if_neg hxc, if_neg hxc, if_pos hycond, if_pos hycond, hystep]
        exact (ih (t + 1) k _ (err + (p.dx : Int)) (by omega)
          (by rw [hrel]; push_cast; ring) (by omega) (by omega)).1
    · rw [bresLoop, if_neg hbreakne]
      simp only []
      by_cases hxc : 2 * err > -((p.dy : Int))
      · rw [if_pos hxc, if_pos hxc, if_pos hycond, if_pos hycond, hxstep, hystep]
        exact (ih (t + 1) (k + 1) _ (err - (p.dy : Int) + (p.dx : Int)) (by omega)
          (by rw [hrel]; push_cast; ring) (by omega) (by omega)).2
      · rw [if_neg hxc, if_neg hxc, if_pos hycond, if_pos hycond, hystep]
        exact (ih (t + 1) k _ (err + (p.dx : Int)) (by omega)
          (by rw [hrel]; push_cast; ring) (by omega) (by omega)).2

/-- C10: for every drawLine call with integer endpoints the Bresenham loop
terminates after visiting exactly max(|x2-x1|, |y2-y1|) + 1 steps, ending
at (x2, y2) with step counter max(|x2-x1|, |y2-y1|): with that much fuel
the loop breaks at the endpoint (first conjunct), drawLine returns the
buffer produced by that completed run (second conjunct), and with one
iteration less the loop does not complete (third conjunct).  Integer
coordinates always pass the source's finiteness guard. -/
theorem drawLine_bresenham_termination (buffer : PixelBuffer) (x1 y1 x2 y2 : Int)
    (color : Color) (style : Option LineStyle) :
    ((bresLoop (drawLineParams x1 y1 x2 y2 color style)
        (max (x2 - x1).natAbs (y2 - y1).natAbs + 1) buffer x1 y1
        (((x2 - x1).natAbs : Int) - ((y2 - y1).natAbs : Int)) 0).map bresOut =
      some (x2, y2, max (x2 - x1).natAbs (y2 - y1).natAbs)) ∧
    (∃ r : PixelBuffer × Int × Int × Nat,
      bresLoop (drawLineParams x1 y1 x2 y2 color style)
          (max (x2 - x1).natAbs (y2 - y1).natAbs + 1) buffer x1 y1
          (((x2 - x1).natAbs : Int) - ((y2 - y1).natAbs : Int)) 0 = some r ∧
      drawLine buffer x1 y1 x2 y2 color style = r.1) ∧
    bresLoop (drawLineParams x1 y1 x2 y2 color style)
        (max (x2 - x1).natAbs (y2 - y1).natAbs) buffer x1 y1
        (((x2 - x1).natAbs : Int) - ((y2 - y1).natAbs : Int)) 0 = Option.none := by
  set p := drawLineParams x1 y1 x2 y2 color style with hp
  have hdx : p.dx = (x2 - x1).natAbs := by simp [hp, drawLineParams]
  have hdy : p.dy = (y2 - y1).natAbs := by simp [hp, drawLineParams]
  have hsx : p.sx = 1 ∨ p.sx = -1 := by
    rw [hp]
    simp only [drawLineParams]
    split_ifs
    · exact Or.inl rfl
    · exact Or.inr rfl
  have hsy : p.sy = 1 ∨ p.sy = -1 := by
    rw [hp]
    simp only [drawLineParams]
    split_ifs
    · exact Or.inl rfl
    · exact Or.inr rfl
  have hx2' : p.x2 = x1 + p.sx * (p.dx : Int) := by
    rw [hp]
    simp only [drawLineParams]
    split_ifs with h
    · omega
    · omega
  have hy2' : p.y2 = y1 + p.sy * (p.dy : Int) := by
    rw [hp]
    simp only [drawLineParams]
    split_ifs with h
    · omega
    · omega
  have hpx2 : p.x2 = x2 := by simp [hp, drawLineParams]
  have hpy2 : p.y2 = y2 := by simp [hp, drawLineParams]
  rw [← hdx, ← hdy]
  have hfinish : ∀ M : Nat, M = max p.dx p.dy →
      ((bresLoop p (M + 1) buffer x1 y1 ((p.dx : Int) - (p.dy : Int)) 0).map bresOut =
        some (p.x2, p.y2, M)) ∧
      bresLoop p M buffer x1 y1 ((p.dx : Int) - (p.dy : Int)) 0 = Option.none := by
    intro M hM
    rcases Nat.lt_trichotomy p.dy p.dx with hlt | heq | hlt
    · have hMdx : M = p.dx := by rw [hM]; omega
      rw [hMdx]
      have h := bresLoop_major p x1 y1 hlt hsx hsy hx2' hy2' p.dx 0 0 buffer
        ((p.dx : Int) - (p.dy : Int)) (by omega) (by push_cast; ring)
        (by omega) (by omega)
      simpa using h
    · have hMdx : M = p.dx := by rw [hM, heq]; omega
      rw [hMdx]
      have h := bresLoop_diag p x1 y1 heq hsx hsy hx2'
        (by rw [hy2', heq]) p.dx 0 buffer (by omega)
      have herr0 : ((p.dx : Int)) - ((p.dy : Int)) = 0 := by rw [heq]; ring
      rw [herr0]
      simpa using h
    · have hMdy : M = p.dy := by rw [hM]; omega
      rw [hMdy]
      have h := bresLoop_minor p x1 y1 hlt hsx hsy hx2' hy2' p.dy 0 0 buffer
        ((p.dx : Int) - (p.dy : Int)) (by omega) (by push_cast; ring)
        (by omega) (by omega)
      simpa using h
  obtain ⟨hmap, hnone⟩ := hfinish (max p.dx p.dy) rfl
  refine ⟨?_, ?_, hnone⟩
  · rw [hmap, hpx2, hpy2]
  · rw [Option.map_eq_some'] at hmap
    obtain ⟨r, hr, hout⟩ := hmap
    refine ⟨r, hr, ?_⟩
    obtain ⟨rb, rx, ry, rs⟩ := r
    simp only [drawLine]
    rw [← hp, hr]

/-- Witness for C9's amended clauses at concrete colors. -/
theorem blendColors_amended_spec_witness :
    ((blendColors ⟨10, 20, 30, some 255⟩ ⟨5, 6, 7, some 40⟩).r = 10 ∧
      (blendColors ⟨10, 20, 30, some 255⟩ ⟨5, 6, 7, some 40⟩).g = 20 ∧
      (blendColors ⟨10, 20, 30, some 255⟩ ⟨5, 6, 7, some 40⟩).b = 30) ∧
    blendColors ⟨1, 2, 3, some 0⟩ ⟨5, 6, 7, some 40⟩ = ⟨5, 6, 7, some 40⟩ ∧
    blendColors ⟨1, 2, 3, some 0⟩ ⟨5, 6, 7, some 0⟩ = TRANSPARENT :=
  ⟨(blendColors_amended_spec ⟨10, 20, 30, some 255⟩ ⟨5, 6, 7, some 40⟩).1
      (Or.inl rfl) (by decide) (by decide) (by decide) (by decide) (by decide) (by decide),
   (blendColors_amended_spec ⟨1, 2, 3, some 0⟩ ⟨5, 6, 7, some 40⟩).2.1
      rfl (by decide) (by decide) (by decide) (by decide) (by decide) (by decide)
      (by decide) (by decide) (by decide),
   (blendColors_amended_spec ⟨1, 2, 3, some 0⟩ ⟨5, 6, 7, some 0⟩).2.2 rfl rfl⟩

end AsciiRender
